import Mathlib

/-!
Verification development for the YouTube source plugin
(`src/index.ts` of `minip-ytb-source`).

The TypeScript source is shallowly embedded: JavaScript strings are Lean
`String`s, but every string operation the source uses (`trim`, `startsWith`,
`includes`, `split`, `toLowerCase`, the regular-expression attribute
extraction of the HLS code) is re-implemented here as a structurally
recursive function over `List Char`, so that all definitions evaluate in
the kernel.  Optional JavaScript fields (`x?.y`, `a ?? b`) are embedded as
`Option` with `<|>` / `Option.getD`; JavaScript truthiness of strings
(`''` is falsy) and numbers (`0` is falsy) is spelled out at each use
site; exceptions are embedded as `Except`.

Stateful parts (the Innertube client pool, the single-slot video-info
cache, the single-slot HLS-manifest cache) are embedded as explicit state
passing; promise settlement is an explicit event (`settleCreate`).
-/

-- ═══════════════════════════════════════════════════════════════════
-- § JavaScript string primitives, re-implemented structurally
-- ═══════════════════════════════════════════════════════════════════

/-- `pat.isPrefixOf l` for `List Char`, written out so it reduces. -/
def charsStartWith : List Char → List Char → Bool
  | _, [] => true
  | [], _ :: _ => false
  | c :: cs, p :: ps => c == p && charsStartWith cs ps

/-- JS `s.startsWith(pat)`. -/
def jsStartsWith (s pat : String) : Bool :=
  charsStartWith s.toList pat.toList

/-- Substring occurrence on character lists (JS `includes`). -/
def charsInclude (l pat : List Char) : Bool :=
  match l with
  | [] => charsStartWith [] pat
  | _ :: t => charsStartWith l pat || charsInclude t pat

/-- JS `s.includes(pat)`. -/
def jsIncludes (s pat : String) : Bool :=
  charsInclude s.toList pat.toList

/-- JS `s.trim()` (whitespace from both ends). -/
def jsTrim (s : String) : String :=
  String.mk (((s.toList.dropWhile Char.isWhitespace).reverse.dropWhile
      Char.isWhitespace).reverse)

/-- Split a character list at every occurrence of the separator char. -/
def charsSplitOn (sep : Char) : List Char → List Char × List (List Char)
  | [] => ([], [])
  | c :: t =>
    let r := charsSplitOn sep t
    if c == sep then ([], r.1 :: r.2) else (c :: r.1, r.2)

/-- JS `s.split('\n')` (single-character separator). -/
def jsSplitLines (s : String) : List String :=
  let r := charsSplitOn '\n' s.toList
  (r.1 :: r.2).map String.mk

/-- JS `array.join('\n')`. -/
def jsJoinLines : List String → String
  | [] => ""
  | [l] => l
  | l :: rest => l ++ "\n" ++ jsJoinLines rest

/-- JS `s.toLowerCase()` (ASCII case folding, as used on subtitles). -/
def jsToLower (s : String) : String :=
  String.mk (s.toList.map Char.toLower)

/-- Numeric value of a digit list, as `parseInt(_, 10)` on a digit match. -/
def digitsToNat (l : List Char) : Nat :=
  l.foldl (fun n c => n * 10 + (c.toNat - 48)) 0

-- ═══════════════════════════════════════════════════════════════════
-- § C2: Innertube client pool (`getInnertube`, src/index.ts:100-118)
-- ═══════════════════════════════════════════════════════════════════

/-- State of the client pool: `clientsMap`, `pendingMap` (an in-flight
creation is identified by the promise id stored in the map), and a
counter for fresh promise ids.  `σ` is the (opaque) Innertube session
type. -/
structure PoolState (σ : Type) where
  clients : String → Option σ
  pending : String → Option Nat
  fresh : Nat

/-- The empty pool (no sessions, nothing in flight). -/
def poolEmpty {σ : Type} : PoolState σ :=
  { clients := fun _ => none, pending := fun _ => none, fresh := 0 }

/-- What a call to `getInnertube` hands back to its caller: an already
resolved session (`Promise.resolve(clientsMap[type])`), the existing
in-flight promise, or a newly started creation promise. -/
inductive GetResult (σ : Type) where
  | resolvedExisting (s : σ)
  | existingPending (p : Nat)
  | newPending (p : Nat)
deriving DecidableEq

/-- `getInnertube(type, forceRecreate)` (src/index.ts:100-118): return
the cached session unless recreation is forced; else return the
in-flight promise unless recreation is forced; else start a new
creation and record it in `pendingMap`. -/
def getInnertube {σ : Type} (st : PoolState σ) (ty : String) (force : Bool) :
    GetResult σ × PoolState σ :=
  match st.clients ty, force with
  | some s, false => (GetResult.resolvedExisting s, st)
  | _, _ =>
    match st.pending ty, force with
    | some p, false => (GetResult.existingPending p, st)
    | _, _ =>
      (GetResult.newPending st.fresh,
        { st with
          pending := fun t => if t == ty then some st.fresh else st.pending t,
          fresh := st.fresh + 1 })

/-- Settlement of the creation promise started for `ty`, i.e. the
continuation `Innertube.create(...).then(instance => { clientsMap[type] =
instance; delete pendingMap[type]; return instance })`: the `.then`
callback runs only on fulfilment; a rejection passes through the `.then`
untouched (there is no rejection handler in the source), leaving both
maps as they were.  The second component is what every awaiter of the
pending promise observes. -/
def settleCreate {σ ε : Type} (st : PoolState σ) (ty : String)
    (o : Except ε σ) : PoolState σ × Except ε σ :=
  match o with
  | Except.ok inst =>
    ({ st with
        clients := fun t => if t == ty then some inst else st.clients t,
        pending := fun t => if t == ty then none else st.pending t },
      Except.ok inst)
  | Except.error e => (st, Except.error e)

-- ═══════════════════════════════════════════════════════════════════
-- § C8: single-slot video-info cache (`getCachedVideoInfo`, 125-133)
-- ═══════════════════════════════════════════════════════════════════

/-- The `_videoInfoCache` slot: `{contentId, info, innertube}`. -/
structure VideoInfoCacheEntry (ι σ : Type) where
  contentId : String
  info : ι
  innertube : σ
deriving DecidableEq

/-- `getCachedVideoInfo(contentId)` (src/index.ts:125-133), embedded with
the upstream metadata fetch (`innertube.getShortsVideoInfo`) as the
abstract deterministic map `fetchInfo` and the session obtained from
`getInnertube()` as `tube`.  Returns the `{info, innertube}` pair, the
updated cache slot, and the number of upstream metadata fetches this
call performed (0 or 1). -/
def getCachedVideoInfo {ι σ : Type} (tube : σ) (fetchInfo : String → ι)
    (cache : Option (VideoInfoCacheEntry ι σ)) (cid : String) :
    (ι × σ) × Option (VideoInfoCacheEntry ι σ) × Nat :=
  match cache with
  | some c =>
    if c.contentId = cid then ((c.info, c.innertube), cache, 0)
    else ((fetchInfo cid, tube), some ⟨cid, fetchInfo cid, tube⟩, 1)
  | none => ((fetchInfo cid, tube), some ⟨cid, fetchInfo cid, tube⟩, 1)

-- ═══════════════════════════════════════════════════════════════════
-- § Formats and streaming data (src/types.ts:748-769)
-- ═══════════════════════════════════════════════════════════════════

/-- One Innertube format descriptor (the fields the source reads; the
`decipher` capability is left out — theorems speak about the format the
source selects, not about the signed URL it is exchanged for). -/
structure InnertubeFormat where
  has_video : Bool
  has_audio : Bool
  height : Option Nat
  mime_type : Option String
  quality_label : Option String
deriving DecidableEq

/-- `streaming_data`: both format arrays are optional in the upstream
payload (`sd.formats ?? []`). -/
structure InnertubeStreamingData where
  formats : Option (List InnertubeFormat)
  adaptive_formats : Option (List InnertubeFormat)
deriving DecidableEq

/-- `f.mime_type?.startsWith('video/')`, with a missing MIME type being
falsy. -/
def mimeIsVideo (f : InnertubeFormat) : Bool :=
  match f.mime_type with
  | some m => jsStartsWith m "video/"
  | none => false

/-- The muxed-format predicate of `getVideoUrlForQuality`
(src/index.ts:284): video, audio, exact height, video MIME. -/
def muxedAtHeight (target : Nat) (f : InnertubeFormat) : Bool :=
  f.has_video && f.has_audio && f.height == some target && mimeIsVideo f

/-- The adaptive-format predicate of `getVideoUrlForQuality`
(src/index.ts:287): video, no audio, exact height, video MIME. -/
def adaptiveAtHeight (target : Nat) (f : InnertubeFormat) : Bool :=
  f.has_video && !f.has_audio && f.height == some target && mimeIsVideo f

/-- `getVideoUrlForQuality(contentId, targetHeight)` (src/index.ts:278-291),
embedded from the point where the (possibly absent) `streaming_data` of
the cached video info is in hand; returns the selected format together
with the `hasAudio` flag of the produced result, or `none` where the
source returns `null`. -/
def getVideoUrlForQuality (sd : Option InnertubeStreamingData)
    (targetHeight : Nat) : Option (InnertubeFormat × Bool) :=
  match sd with
  | none => none
  | some sd =>
    match (sd.formats.getD []).find? (muxedAtHeight targetHeight) with
    | some muxed => some (muxed, true)
    | none =>
      match (sd.adaptive_formats.getD []).find? (adaptiveAtHeight targetHeight) with
      | some adaptive => some (adaptive, false)
      | none => none

-- ═══════════════════════════════════════════════════════════════════
-- § Claim theorems C2, C8, C4
-- ═══════════════════════════════════════════════════════════════════

/-- **C2, counterexample.**  The claim says a failed creation clears the
in-flight marker so that the next `getInnertube` call starts a fresh
attempt.  On the code, `Innertube.create(...).then(...)` has no rejection
handler, so on failure `pendingMap` keeps the (rejected) promise: after
starting a creation for `"MWEB"` in the empty pool and settling it with
an error, the marker is still promise `0`, and a subsequent call returns
that same promise instead of starting a new one. -/
theorem getInnertube_failure_keeps_pending_cex :
    (settleCreate (σ := Unit) (ε := String)
        (getInnertube poolEmpty "MWEB" false).2 "MWEB"
        (Except.error "boom")).1.pending "MWEB" = some 0 ∧
    (getInnertube (settleCreate (σ := Unit) (ε := String)
        (getInnertube poolEmpty "MWEB" false).2 "MWEB"
        (Except.error "boom")).1 "MWEB" false).1 =
      GetResult.existingPending 0 := by
  constructor <;> rfl

/-- **C2, amended.**  On failure, the in-flight marker is NOT cleared:
the whole pool state is untouched and the error propagates to every
awaiter of the pending promise; while the client slot is empty, a
subsequent `getInnertube` call returns the same in-flight promise rather
than starting a fresh creation.  On success, the session is recorded in
`clientsMap`, the in-flight marker is cleared, and every awaiter
observes the instance. -/
theorem getInnertube_settlement (σ ε : Type) (st : PoolState σ)
    (ty : String) :
    (∀ e : ε, settleCreate st ty (Except.error e) = (st, Except.error e)) ∧
    (∀ p, st.pending ty = some p → st.clients ty = none →
      getInnertube st ty false = (GetResult.existingPending p, st)) ∧
    (∀ inst : σ,
      (settleCreate (ε := ε) st ty (Except.ok inst)).1.clients ty = some inst ∧
      (settleCreate (ε := ε) st ty (Except.ok inst)).1.pending ty = none ∧
      (settleCreate (ε := ε) st ty (Except.ok inst)).2 = Except.ok inst) := by
  refine ⟨fun e => rfl, fun p hp hc => ?_, fun inst => ⟨?_, ?_, rfl⟩⟩
  · simp only [getInnertube, hp, hc]
  · simp [settleCreate]
  · simp [settleCreate]

/-- **C2, witness for the amended theorem** at a concrete pool state with
an in-flight creation for `"WEB"`. -/
theorem getInnertube_settlement_witness :
    (∀ e : String, settleCreate
        (⟨fun _ => none, fun t => if t == "WEB" then some 7 else none, 8⟩ :
          PoolState Unit) "WEB" (Except.error e) =
      (⟨fun _ => none, fun t => if t == "WEB" then some 7 else none, 8⟩,
        Except.error e)) ∧
    getInnertube
        (⟨fun _ => none, fun t => if t == "WEB" then some 7 else none, 8⟩ :
          PoolState Unit) "WEB" false =
      (GetResult.existingPending 7,
        ⟨fun _ => none, fun t => if t == "WEB" then some 7 else none, 8⟩) := by
  have h := getInnertube_settlement Unit String
    (⟨fun _ => none, fun t => if t == "WEB" then some 7 else none, 8⟩ :
      PoolState Unit) "WEB"
  exact ⟨h.1, h.2.1 7 rfl rfl⟩

/-- **C8 (confirmed).**  Single-slot video-info cache round-trip: after
any call for `cid`, a second call for the same `cid` performs no
upstream metadata fetch and returns the identical `{info, innertube}`
pair with the slot unchanged; an intervening call for a different
`cid'` overwrites the single slot with exactly `{cid', info', tube}`
(superseded, not merged), after which a call for the original `cid`
fetches again (one upstream fetch). -/
theorem getCachedVideoInfo_roundtrip {ι σ : Type} (tube : σ)
    (fetchInfo : String → ι) (cache : Option (VideoInfoCacheEntry ι σ))
    (cid cid' : String) (hne : cid ≠ cid') :
    (getCachedVideoInfo tube fetchInfo
        (getCachedVideoInfo tube fetchInfo cache cid).2.1 cid =
      ((getCachedVideoInfo tube fetchInfo cache cid).1,
        (getCachedVideoInfo tube fetchInfo cache cid).2.1, 0)) ∧
    ((getCachedVideoInfo tube fetchInfo
        (getCachedVideoInfo tube fetchInfo cache cid).2.1 cid').2.1 =
      some ⟨cid', fetchInfo cid', tube⟩) ∧
    ((getCachedVideoInfo tube fetchInfo
        (getCachedVideoInfo tube fetchInfo
          (getCachedVideoInfo tube fetchInfo cache cid).2.1 cid').2.1
        cid).2.2 = 1) := by
  have hslot : ∀ (c : Option (VideoInfoCacheEntry ι σ)) (x : String),
      (getCachedVideoInfo tube fetchInfo c x).2.1 =
        some ⟨x, (getCachedVideoInfo tube fetchInfo c x).1.1,
          (getCachedVideoInfo tube fetchInfo c x).1.2⟩ := by
    intro c x
    match c with
    | none => rfl
    | some entry =>
      obtain ⟨ecid, einfo, etube⟩ := entry
      by_cases h : ecid = x
      · subst h
        simp [getCachedVideoInfo]
      · simp [getCachedVideoInfo, h]
  refine ⟨?_, ?_, ?_⟩
  · rw [hslot cache cid]
    generalize getCachedVideoInfo tube fetchInfo cache cid = r
    simp [getCachedVideoInfo]
  · rw [hslot cache cid]
    generalize getCachedVideoInfo tube fetchInfo cache cid = r
    simp [getCachedVideoInfo, hne]
  · rw [hslot cache cid, hslot _ cid']
    generalize getCachedVideoInfo tube fetchInfo
      (getCachedVideoInfo tube fetchInfo cache cid).2.1 cid' = r
    simp [getCachedVideoInfo, Ne.symm hne]

/-- **C8, witness**: concrete run with `Nat` infos, seed ids `"a"`/`"b"`. -/
theorem getCachedVideoInfo_roundtrip_witness :
    ("a" : String) ≠ "b" ∧
    ((getCachedVideoInfo (ι := Nat) (σ := Unit) () String.length
        (getCachedVideoInfo (ι := Nat) (σ := Unit) () String.length none "a").2.1
        "a" =
      ((1, ()), some ⟨"a", 1, ()⟩, 0)) ∧
    ((getCachedVideoInfo (ι := Nat) (σ := Unit) () String.length
        (getCachedVideoInfo (ι := Nat) (σ := Unit) () String.length none "a").2.1
        "b").2.1 = some ⟨"b", 1, ()⟩)) := by
  have h := getCachedVideoInfo_roundtrip (ι := Nat) (σ := Unit) ()
    String.length none "a" "b" (by decide)
  refine ⟨by decide, by rw [h.1]; rfl, by rw [h.2.1]; rfl⟩

/-- **C4 (confirmed).**  `getVideoUrlForQuality` never resolves a format
of the wrong height: whenever it returns a result, the selected format
has exactly the requested height (and it is muxed — `hasAudio = true` —
precisely when a muxed format exists at that height); it returns `none`
exactly when the streaming data is absent or no muxed and no adaptive
video format exists at the exact requested height — even if formats at
other heights are available. -/
theorem getVideoUrlForQuality_exact_height
    (sd : Option InnertubeStreamingData) (targetHeight : Nat) :
    (∀ f b, getVideoUrlForQuality sd targetHeight = some (f, b) →
      f.height = some targetHeight) ∧
    (getVideoUrlForQuality sd targetHeight = none ↔
      (sd = none ∨ ∃ d, sd = some d ∧
        (∀ f ∈ d.formats.getD [], ¬ muxedAtHeight targetHeight f) ∧
        (∀ f ∈ d.adaptive_formats.getD [], ¬ adaptiveAtHeight targetHeight f))) := by
  constructor
  · intro f b h
    cases sd with
    | none => simp [getVideoUrlForQuality] at h
    | some d =>
      simp only [getVideoUrlForQuality] at h
      cases hm : (d.formats.getD []).find? (muxedAtHeight targetHeight) with
      | some muxed =>
        simp only [hm] at h
        rw [Option.some.injEq, Prod.mk.injEq] at h
        have hp := List.find?_some hm
        have hh : (muxed.height == some targetHeight) = true := by
          simp only [muxedAtHeight, Bool.and_eq_true] at hp; tauto
        rw [← h.1]
        exact eq_of_beq hh
      | none =>
        simp only [hm] at h
        cases ha : (d.adaptive_formats.getD []).find? (adaptiveAtHeight targetHeight) with
        | some adaptive =>
          simp only [ha] at h
          rw [Option.some.injEq, Prod.mk.injEq] at h
          have hp := List.find?_some ha
          have hh : (adaptive.height == some targetHeight) = true := by
            simp only [adaptiveAtHeight, Bool.and_eq_true] at hp; tauto
          rw [← h.1]
          exact eq_of_beq hh
        | none => simp [ha] at h
  · cases sd with
    | none => simp [getVideoUrlForQuality]
    | some d =>
      simp only [getVideoUrlForQuality]
      cases hm : (d.formats.getD []).find? (muxedAtHeight targetHeight) with
      | some muxed =>
        have hp := List.find?_some hm
        have hmem := List.mem_of_find?_eq_some hm
        simp only [hm]
        constructor
        · intro h; exact absurd h (by simp)
        · rintro (h | ⟨d', hd', hmux, _⟩)
          · exact absurd h (by simp)
          · rw [Option.some.injEq] at hd'
            exact absurd hp (by simpa using hmux muxed (hd' ▸ hmem))
      | none =>
        cases ha : (d.adaptive_formats.getD []).find? (adaptiveAtHeight targetHeight) with
        | some adaptive =>
          have hp := List.find?_some ha
          have hmem := List.mem_of_find?_eq_some ha
          simp only [hm, ha]
          constructor
          · intro h; exact absurd h (by simp)
          · rintro (h | ⟨d', hd', _, hada⟩)
            · exact absurd h (by simp)
            · rw [Option.some.injEq] at hd'
              exact absurd hp (by simpa using hada adaptive (hd' ▸ hmem))
        | none =>
          simp only [hm, ha]
          refine ⟨fun _ => Or.inr ⟨d, rfl, ?_, ?_⟩, fun _ => trivial⟩
          · intro f hf
            have := List.find?_eq_none.mp hm f hf
            simpa using this
          · intro f hf
            have := List.find?_eq_none.mp ha f hf
            simpa using this

/-- **C4, witness**: with a single muxed 720p format and an adaptive
480p format, the request for 720 selects the muxed format (height 720),
and the request for 1080 is absent even though 720 and 480 exist. -/
theorem getVideoUrlForQuality_exact_height_witness :
    getVideoUrlForQuality
        (some ⟨some [⟨true, true, some 720, some "video/mp4", none⟩],
          some [⟨true, false, some 480, some "video/webm", none⟩]⟩) 720 =
      some (⟨true, true, some 720, some "video/mp4", none⟩, true) ∧
    (⟨true, true, some 720, some "video/mp4", none⟩ : InnertubeFormat).height
      = some 720 ∧
    getVideoUrlForQuality
        (some ⟨some [⟨true, true, some 720, some "video/mp4", none⟩],
          some [⟨true, false, some 480, some "video/webm", none⟩]⟩) 1080 =
      none := by
  refine ⟨by decide, ?_, ?_⟩
  · exact (getVideoUrlForQuality_exact_height
      (some ⟨some [⟨true, true, some 720, some "video/mp4", none⟩],
        some [⟨true, false, some 480, some "video/webm", none⟩]⟩) 720).1
      ⟨true, true, some 720, some "video/mp4", none⟩ true (by decide)
  · exact (getVideoUrlForQuality_exact_height
      (some ⟨some [⟨true, true, some 720, some "video/mp4", none⟩],
        some [⟨true, false, some 480, some "video/webm", none⟩]⟩) 1080).2.mpr
      (Or.inr ⟨_, rfl, by decide, by decide⟩)

-- ═══════════════════════════════════════════════════════════════════
-- § JS `Map<number, _>` with insertion-order iteration
-- ═══════════════════════════════════════════════════════════════════

/-- The key list of an association-list map, in iteration order. -/
def mapKeys {β : Type} (m : List (Nat × β)) : List Nat :=
  m.map (fun p => p.1)

/-- JS `map.has(k)`. -/
def mapHasKey {β : Type} (m : List (Nat × β)) (k : Nat) : Bool :=
  m.any (fun p => p.1 == k)

/-- JS `map.set(k, v)`: replaces in place (keeping the original insertion
position) when the key exists, appends otherwise. -/
def mapSet {β : Type} (m : List (Nat × β)) (k : Nat) (v : β) :
    List (Nat × β) :=
  if mapHasKey m k then m.map (fun p => if p.1 == k then (k, v) else p)
  else m ++ [(k, v)]

/-- JS `map.get(k)`. -/
def mapGet {β : Type} (m : List (Nat × β)) (k : Nat) : Option β :=
  (m.find? (fun p => p.1 == k)).map (fun p => p.2)

theorem mapHasKey_iff {β : Type} (m : List (Nat × β)) (k : Nat) :
    mapHasKey m k = true ↔ k ∈ mapKeys m := by
  simp only [mapHasKey, List.any_eq_true, beq_iff_eq, mapKeys, List.mem_map]

theorem mapKeys_mapSet_of_has {β : Type} {m : List (Nat × β)} {k : Nat}
    (v : β) (h : mapHasKey m k = true) :
    mapKeys (mapSet m k v) = mapKeys m := by
  simp only [mapSet, h, if_true, mapKeys, List.map_map]
  apply List.map_congr_left
  intro p _
  by_cases hp : p.1 = k
  · simp [hp]
  · simp [hp]

theorem mapKeys_mapSet_of_not {β : Type} {m : List (Nat × β)} {k : Nat}
    (v : β) (h : mapHasKey m k = false) :
    mapKeys (mapSet m k v) = mapKeys m ++ [k] := by
  simp [mapSet, h, mapKeys]

theorem mem_mapKeys_mapSet {β : Type} {m : List (Nat × β)} {k k' : Nat}
    {v : β} :
    k' ∈ mapKeys (mapSet m k v) ↔ k' ∈ mapKeys m ∨ k' = k := by
  by_cases h : mapHasKey m k = true
  · rw [mapKeys_mapSet_of_has v h]
    constructor
    · exact Or.inl
    · rintro (hk | rfl)
      · exact hk
      · exact (mapHasKey_iff m k').mp h
  · rw [mapKeys_mapSet_of_not v (by simpa using h)]
    simp

theorem mapKeys_nodup_mapSet {β : Type} {m : List (Nat × β)} {k : Nat}
    (v : β) (hnd : (mapKeys m).Nodup) :
    (mapKeys (mapSet m k v)).Nodup := by
  by_cases h : mapHasKey m k = true
  · rwa [mapKeys_mapSet_of_has v h]
  · rw [mapKeys_mapSet_of_not v (by simpa using h)]
    refine List.Nodup.append hnd (List.nodup_singleton k) ?_
    intro a ha hb
    rw [List.mem_singleton] at hb
    subst hb
    exact h ((mapHasKey_iff m a).mpr ha)

theorem mem_mapSet_elim {β : Type} {m : List (Nat × β)} {k : Nat} {v : β}
    {p : Nat × β} (hp : p ∈ mapSet m k v) : p ∈ m ∨ p = (k, v) := by
  by_cases h : mapHasKey m k = true
  · simp only [mapSet, h, if_true, List.mem_map] at hp
    obtain ⟨q, hq, hq2⟩ := hp
    by_cases hqk : q.1 = k
    · rw [if_pos (by simp [hqk])] at hq2
      exact Or.inr hq2.symm
    · rw [if_neg (by simp [hqk])] at hq2
      exact Or.inl (hq2 ▸ hq)
  · unfold mapSet at hp
    rw [if_neg h] at hp
    simpa using hp

-- ═══════════════════════════════════════════════════════════════════
-- § C3: progressive fallback of `getVideoInfo` (src/index.ts:254-271)
-- ═══════════════════════════════════════════════════════════════════

/-- The `VideoQuality` model (types/media): one rung of the ladder.
`bitrate` is set only by the HLS parser. -/
structure VideoQuality where
  label : String
  height : Nat
  hasAudio : Bool
  bitrate : Option Nat
deriving DecidableEq

/-- One value of the `byHeight` map: `{format, hasAudio, label}`. -/
structure VideoFormatEntry where
  format : InnertubeFormat
  hasAudio : Bool
  label : String
deriving DecidableEq

/-- `f.quality_label || h + "p"` — JS `||` falls through on the empty
string as well as on a missing field. -/
def formatLabel (f : InnertubeFormat) (h : Nat) : String :=
  match f.quality_label with
  | some ql => if ql = "" then toString h ++ "p" else ql
  | none => toString h ++ "p"

/-- `(sd.formats ?? []).filter(f => f.has_video && f.has_audio &&
f.mime_type?.startsWith('video/'))`. -/
def muxedFormats (sd : InnertubeStreamingData) : List InnertubeFormat :=
  (sd.formats.getD []).filter (fun f => f.has_video && f.has_audio && mimeIsVideo f)

/-- `(sd.adaptive_formats ?? []).filter(f => f.has_video && !f.has_audio
&& f.mime_type?.startsWith('video/'))`. -/
def adaptiveVideoFormats (sd : InnertubeStreamingData) : List InnertubeFormat :=
  (sd.adaptive_formats.getD []).filter
    (fun f => f.has_video && !f.has_audio && mimeIsVideo f)

/-- `const h = f.height; if (h) ...` — a missing height and a zero height
are both falsy in JS. -/
def usableHeight (f : InnertubeFormat) : Option Nat :=
  match f.height with
  | some h => if h = 0 then none else some h
  | none => none

/-- The first loop over `muxedFormats`: `byHeight.set(h, {format: f,
hasAudio: true, label: ...})` for every usable height. -/
def addMuxedLoop (m : List (Nat × VideoFormatEntry))
    (fs : List InnertubeFormat) : List (Nat × VideoFormatEntry) :=
  fs.foldl (fun m f =>
    match usableHeight f with
    | some h => mapSet m h ⟨f, true, formatLabel f h⟩
    | none => m) m

/-- The second loop over `adaptiveVideoFormats`: set only when the
height is not yet present (`if (h && !byHeight.has(h))`). -/
def addAdaptiveLoop (m : List (Nat × VideoFormatEntry))
    (fs : List InnertubeFormat) : List (Nat × VideoFormatEntry) :=
  fs.foldl (fun m f =>
    match usableHeight f with
    | some h =>
      if mapHasKey m h then m else mapSet m h ⟨f, false, formatLabel f h⟩
    | none => m) m

/-- The fully built `byHeight` map of the progressive fallback. -/
def byHeight (sd : InnertubeStreamingData) : List (Nat × VideoFormatEntry) :=
  addAdaptiveLoop (addMuxedLoop [] (muxedFormats sd)) (adaptiveVideoFormats sd)

/-- Usable heights contributed by muxed formats. -/
def muxedHeights (sd : InnertubeStreamingData) : List Nat :=
  (muxedFormats sd).filterMap usableHeight

/-- Usable heights contributed by adaptive video-only formats. -/
def adaptiveHeights (sd : InnertubeStreamingData) : List Nat :=
  (adaptiveVideoFormats sd).filterMap usableHeight

/-- Insert into a list sorted ascending by height (used to model the JS
`sort((a, b) => a.height - b.height)`). -/
def insertByHeight (q : VideoQuality) : List VideoQuality → List VideoQuality
  | [] => [q]
  | x :: xs =>
    if q.height ≤ x.height then q :: x :: xs else x :: insertByHeight q xs

/-- Sort ascending by height (`qualities.sort((a, b) => a.height -
b.height)`). -/
def sortByHeight : List VideoQuality → List VideoQuality
  | [] => []
  | x :: xs => insertByHeight x (sortByHeight xs)

/-- `Math.abs(h - 720)`, the distance used for default-quality choice. -/
def distTo720 (h : Nat) : Nat :=
  ((h : Int) - 720).natAbs

/-- `qualities.reduce((best, q) => Math.abs(q.height - 720) <
Math.abs(best.height - 720) ? q : best)` — fold over the tail with the
head as initial accumulator. -/
def reduceClosest720 (best : VideoQuality) (l : List VideoQuality) :
    VideoQuality :=
  l.foldl (fun best q =>
    if distTo720 q.height < distTo720 best.height then q else best) best

/-- What the progressive fallback of `getVideoInfo` resolves (the URL is
`entry.format.decipher(...)`; we keep the chosen format itself). -/
structure ProgressiveResult where
  format : InnertubeFormat
  hasAudio : Bool
  qualities : List VideoQuality
  defaultHeight : Nat
deriving DecidableEq

/-- The progressive fallback of `getVideoInfo` (src/index.ts:254-271):
build `byHeight`, turn it into a sorted quality ladder, bail out with
`null` when the ladder is empty, pick the rung closest to 720, and
resolve the format stored for that rung.  (`byHeight.get(...)!` with an
absent key would make `decipher` throw, which the enclosing `try` turns
into `null`; that is the `none` in the last match arm.) -/
def getVideoInfoFallback (sd : InnertubeStreamingData) :
    Option ProgressiveResult :=
  match sortByHeight ((byHeight sd).map
      (fun p => ⟨p.2.label, p.1, p.2.hasAudio, none⟩)) with
  | [] => none
  | q0 :: rest =>
    match mapGet (byHeight sd) (reduceClosest720 q0 rest).height with
    | some e =>
      some ⟨e.format, e.hasAudio, q0 :: rest, (reduceClosest720 q0 rest).height⟩
    | none => none

theorem insertByHeight_perm (q : VideoQuality) (l : List VideoQuality) :
    (insertByHeight q l).Perm (q :: l) := by
  induction l with
  | nil => rfl
  | cons x xs ih =>
    unfold insertByHeight
    by_cases h : q.height ≤ x.height
    · rw [if_pos h]
    · rw [if_neg h]
      exact ((ih.cons x).trans (List.Perm.swap q x xs)).symm.symm

theorem sortByHeight_perm (l : List VideoQuality) :
    (sortByHeight l).Perm l := by
  induction l with
  | nil => rfl
  | cons x xs ih =>
    exact (insertByHeight_perm x (sortByHeight xs)).trans (ih.cons x)

theorem insertByHeight_sorted (q : VideoQuality) (l : List VideoQuality)
    (hs : l.Pairwise (fun a b => a.height ≤ b.height)) :
    (insertByHeight q l).Pairwise (fun a b => a.height ≤ b.height) := by
  induction l with
  | nil => simp [insertByHeight]
  | cons x xs ih =>
    rw [List.pairwise_cons] at hs
    unfold insertByHeight
    by_cases h : q.height ≤ x.height
    · rw [if_pos h]
      refine List.Pairwise.cons ?_ (List.Pairwise.cons hs.1 hs.2)
      intro b hb
      rcases List.mem_cons.mp hb with rfl | hb
      · exact h
      · exact le_trans h (hs.1 b hb)
    · rw [if_neg h]
      refine List.Pairwise.cons ?_ (ih hs.2)
      intro b hb
      rcases List.mem_cons.mp ((insertByHeight_perm q xs).mem_iff.mp hb) with rfl | hb
      · omega
      · exact hs.1 b hb

theorem sortByHeight_sorted (l : List VideoQuality) :
    (sortByHeight l).Pairwise (fun a b => a.height ≤ b.height) := by
  induction l with
  | nil => exact List.Pairwise.nil
  | cons x xs ih => exact insertByHeight_sorted x (sortByHeight xs) ih

theorem reduceClosest720_cons (best x : VideoQuality) (xs : List VideoQuality) :
    reduceClosest720 best (x :: xs) =
      reduceClosest720
        (if distTo720 x.height < distTo720 best.height then x else best) xs := by
  unfold reduceClosest720
  rw [List.foldl_cons]

theorem reduceClosest720_mem (best : VideoQuality) (l : List VideoQuality) :
    reduceClosest720 best l = best ∨ reduceClosest720 best l ∈ l := by
  induction l generalizing best with
  | nil => exact Or.inl rfl
  | cons x xs ih =>
    rw [reduceClosest720_cons]
    by_cases h : distTo720 x.height < distTo720 best.height
    · rw [if_pos h]
      rcases ih x with h2 | h2
      · exact Or.inr (by rw [h2]; exact List.mem_cons_self x xs)
      · exact Or.inr (List.mem_cons_of_mem x h2)
    · rw [if_neg h]
      rcases ih best with h2 | h2
      · exact Or.inl h2
      · exact Or.inr (List.mem_cons_of_mem x h2)

theorem reduceClosest720_min (best : VideoQuality) (l : List VideoQuality) :
    distTo720 (reduceClosest720 best l).height ≤ distTo720 best.height ∧
    ∀ q ∈ l, distTo720 (reduceClosest720 best l).height ≤ distTo720 q.height := by
  induction l generalizing best with
  | nil => exact ⟨le_refl _, fun q hq => absurd hq (List.not_mem_nil q)⟩
  | cons x xs ih =>
    rw [reduceClosest720_cons]
    by_cases h : distTo720 x.height < distTo720 best.height
    · rw [if_pos h]
      refine ⟨le_trans (ih x).1 (le_of_lt h), ?_⟩
      intro q hq
      rcases List.mem_cons.mp hq with hqx | hq
      · cases hqx; exact (ih x).1
      · exact (ih x).2 q hq
    · rw [if_neg h]
      refine ⟨(ih best).1, ?_⟩
      intro q hq
      rcases List.mem_cons.mp hq with hqx | hq
      · cases hqx; exact le_trans (ih best).1 (le_of_not_lt h)
      · exact (ih best).2 q hq

theorem addMuxedLoop_cons (m : List (Nat × VideoFormatEntry))
    (f : InnertubeFormat) (fs : List InnertubeFormat) :
    addMuxedLoop m (f :: fs) =
      addMuxedLoop
        (match usableHeight f with
          | some h => mapSet m h ⟨f, true, formatLabel f h⟩
          | none => m) fs := by
  unfold addMuxedLoop
  rw [List.foldl_cons]

theorem addAdaptiveLoop_cons (m : List (Nat × VideoFormatEntry))
    (f : InnertubeFormat) (fs : List InnertubeFormat) :
    addAdaptiveLoop m (f :: fs) =
      addAdaptiveLoop
        (match usableHeight f with
          | some h =>
            if mapHasKey m h then m
            else mapSet m h ⟨f, false, formatLabel f h⟩
          | none => m) fs := by
  unfold addAdaptiveLoop
  rw [List.foldl_cons]

/-- Characterization of the muxed loop: keys stay duplicate-free, every
entry is muxed (`hasAudio = true`), and the key set grows by exactly the
usable heights of the processed formats. -/
theorem addMuxedLoop_spec (fs : List InnertubeFormat) :
    ∀ m, (mapKeys m).Nodup → (∀ p ∈ m, p.2.hasAudio = true) →
    (mapKeys (addMuxedLoop m fs)).Nodup ∧
    (∀ p ∈ addMuxedLoop m fs, p.2.hasAudio = true) ∧
    (∀ h, h ∈ mapKeys (addMuxedLoop m fs) ↔
      h ∈ mapKeys m ∨ h ∈ fs.filterMap usableHeight) := by
  induction fs with
  | nil =>
    intro m h1 h2
    exact ⟨h1, h2, by simp [addMuxedLoop]⟩
  | cons f fs ih =>
    intro m h1 h2
    rw [addMuxedLoop_cons]
    cases hu : usableHeight f with
    | none =>
      refine ⟨(ih m h1 h2).1, (ih m h1 h2).2.1, ?_⟩
      intro h
      rw [(ih m h1 h2).2.2 h]
      simp [List.filterMap_cons, hu]
    | some hh =>
      have h1' := mapKeys_nodup_mapSet
        (m := m) (k := hh) (⟨f, true, formatLabel f hh⟩ : VideoFormatEntry) h1
      have h2' : ∀ p ∈ mapSet m hh (⟨f, true, formatLabel f hh⟩ : VideoFormatEntry),
          p.2.hasAudio = true := by
        intro p hp
        rcases mem_mapSet_elim hp with hp | hp
        · exact h2 p hp
        · rw [hp]
      refine ⟨(ih _ h1' h2').1, (ih _ h1' h2').2.1, ?_⟩
      intro h
      rw [(ih _ h1' h2').2.2 h, List.filterMap_cons, hu]
      rw [show (h ∈ mapKeys (mapSet m hh ⟨f, true, formatLabel f hh⟩)) ↔
        (h ∈ mapKeys m ∨ h = hh) from mem_mapKeys_mapSet]
      simp only [List.mem_cons]
      tauto

/-- Characterization of the adaptive loop: keys stay duplicate-free,
existing entries are never touched, every new entry is audio-less and at
a key that was absent, and the key set grows by the usable heights of
the processed adaptive formats. -/
theorem addAdaptiveLoop_spec (fs : List InnertubeFormat) :
    ∀ m, (mapKeys m).Nodup →
    (mapKeys (addAdaptiveLoop m fs)).Nodup ∧
    (∀ p ∈ addAdaptiveLoop m fs,
      p ∈ m ∨ (p.2.hasAudio = false ∧ p.1 ∉ mapKeys m)) ∧
    (∀ p ∈ m, p ∈ addAdaptiveLoop m fs) ∧
    (∀ h, h ∈ mapKeys (addAdaptiveLoop m fs) ↔
      h ∈ mapKeys m ∨ h ∈ fs.filterMap usableHeight) := by
  induction fs with
  | nil =>
    intro m h1
    exact ⟨h1, fun p hp => Or.inl hp, fun p hp => hp, by simp [addAdaptiveLoop]⟩
  | cons f fs ih =>
    intro m h1
    rw [addAdaptiveLoop_cons]
    cases hu : usableHeight f with
    | none =>
      refine ⟨(ih m h1).1, (ih m h1).2.1, (ih m h1).2.2.1, ?_⟩
      intro h
      rw [(ih m h1).2.2.2 h]
      simp [List.filterMap_cons, hu]
    | some hh =>
      dsimp only
      by_cases hk : mapHasKey m hh = true
      · rw [if_pos hk]
        refine ⟨(ih m h1).1, (ih m h1).2.1, (ih m h1).2.2.1, ?_⟩
        intro h
        rw [(ih m h1).2.2.2 h, List.filterMap_cons, hu]
        simp only [List.mem_cons]
        have : hh ∈ mapKeys m := (mapHasKey_iff m hh).mp hk
        constructor
        · rintro (hm | hm)
          · exact Or.inl hm
          · exact Or.inr (Or.inr hm)
        · rintro (hm | rfl | hm)
          · exact Or.inl hm
          · exact Or.inl this
          · exact Or.inr hm
      · rw [if_neg hk]
        have hkf : mapHasKey m hh = false := by simpa using hk
        have hset : mapSet m hh (⟨f, false, formatLabel f hh⟩ : VideoFormatEntry) =
            m ++ [(hh, ⟨f, false, formatLabel f hh⟩)] := by
          unfold mapSet
          rw [if_neg hk]
        have h1' := mapKeys_nodup_mapSet
          (m := m) (k := hh) (⟨f, false, formatLabel f hh⟩ : VideoFormatEntry) h1
        have hnotin : hh ∉ mapKeys m := fun hmem => hk ((mapHasKey_iff m hh).mpr hmem)
        refine ⟨(ih _ h1').1, ?_, ?_, ?_⟩
        · intro p hp
          rcases (ih _ h1').2.1 p hp with hp2 | hp2
          · rw [hset, List.mem_append, List.mem_singleton] at hp2
            rcases hp2 with hp2 | hp2
            · exact Or.inl hp2
            · exact Or.inr (by rw [hp2]; exact ⟨rfl, hnotin⟩)
          · refine Or.inr ⟨hp2.1, fun hmem => hp2.2 ?_⟩
            exact mem_mapKeys_mapSet.mpr (Or.inl hmem)
        · intro p hp
          refine (ih _ h1').2.2.1 p ?_
          rw [hset, List.mem_append]
          exact Or.inl hp
        · intro h
          rw [(ih _ h1').2.2.2 h, List.filterMap_cons, hu]
          rw [show (h ∈ mapKeys (mapSet m hh ⟨f, false, formatLabel f hh⟩)) ↔
            (h ∈ mapKeys m ∨ h = hh) from mem_mapKeys_mapSet]
          simp only [List.mem_cons]
          tauto

/-- The `byHeight` map of the fallback path: duplicate-free keys, an
entry is muxed exactly when its height is a muxed height, and the key
set is the union of muxed and adaptive usable heights. -/
theorem byHeight_spec (sd : InnertubeStreamingData) :
    (mapKeys (byHeight sd)).Nodup ∧
    (∀ p ∈ byHeight sd, (p.2.hasAudio = true ↔ p.1 ∈ muxedHeights sd)) ∧
    (∀ h, h ∈ mapKeys (byHeight sd) ↔
      h ∈ muxedHeights sd ∨ h ∈ adaptiveHeights sd) := by
  have hM := addMuxedLoop_spec (muxedFormats sd) [] (by simp [mapKeys])
    (by simp)
  have hMkeys : ∀ h, h ∈ mapKeys (addMuxedLoop [] (muxedFormats sd)) ↔
      h ∈ muxedHeights sd := by
    intro h
    rw [hM.2.2 h]
    simp [mapKeys, muxedHeights]
  have hA := addAdaptiveLoop_spec (adaptiveVideoFormats sd) _ hM.1
  refine ⟨hA.1, ?_, ?_⟩
  · intro p hp
    rcases hA.2.1 p hp with hp2 | hp2
    · have haud := hM.2.1 p hp2
      have hkey : p.1 ∈ mapKeys (addMuxedLoop [] (muxedFormats sd)) :=
        List.mem_map_of_mem (fun q => q.1) hp2
      rw [haud]
      simp [(hMkeys p.1).mp hkey]
    · rw [hp2.1]
      have : p.1 ∉ muxedHeights sd := fun hmem => hp2.2 ((hMkeys p.1).mpr hmem)
      simp [this]
  · intro h
    unfold byHeight
    rw [hA.2.2.2 h, hMkeys h]
    rfl

/-- A key present in the key list can be read back with `mapGet`, and
the value read is one of the map's entries. -/
theorem mapGet_of_mem_keys {β : Type} {m : List (Nat × β)} {k : Nat}
    (h : k ∈ mapKeys m) : ∃ v, mapGet m k = some v ∧ (k, v) ∈ m := by
  unfold mapGet
  cases hf : m.find? (fun p => p.1 == k) with
  | none =>
    exfalso
    rw [mapKeys, List.mem_map] at h
    obtain ⟨p, hp, hpk⟩ := h
    exact absurd (by simpa using hpk) (by simpa using List.find?_eq_none.mp hf p hp)
  | some p =>
    have hp : p.1 = k := by simpa using List.find?_some hf
    have hmem := List.mem_of_find?_eq_some hf
    refine ⟨p.2, rfl, ?_⟩
    have : (k, p.2) = p := by
      obtain ⟨p1, p2⟩ := p
      simp only at hp
      rw [hp]
    rwa [this]

/-- **C3 (confirmed).**  The progressive fallback of `getVideoInfo`:
when it produces a result, its quality ladder is the union by height of
the usable muxed and adaptive video-only heights, a rung carries audio
exactly when its height comes from a muxed format (muxed wins at equal
heights), the ladder is sorted ascending with one rung per height, the
default height is a rung of the ladder minimizing the distance to 720,
and the resolved format's audio flag matches the default rung; when no
format yields a usable height the result is `none`, not an error. -/
theorem getVideoInfo_fallback_ladder (sd : InnertubeStreamingData) :
    (match getVideoInfoFallback sd with
      | some r =>
        (∀ q ∈ r.qualities,
          (q.height ∈ muxedHeights sd ∨ q.height ∈ adaptiveHeights sd) ∧
          (q.hasAudio = true ↔ q.height ∈ muxedHeights sd)) ∧
        (∀ h, (h ∈ muxedHeights sd ∨ h ∈ adaptiveHeights sd) →
          ∃ q ∈ r.qualities, q.height = h) ∧
        r.qualities.Pairwise (fun a b => a.height ≤ b.height) ∧
        (r.qualities.map (fun q => q.height)).Nodup ∧
        (∃ q ∈ r.qualities, q.height = r.defaultHeight) ∧
        (∀ q ∈ r.qualities, distTo720 r.defaultHeight ≤ distTo720 q.height) ∧
        (r.hasAudio = true ↔ r.defaultHeight ∈ muxedHeights sd)
      | none => muxedHeights sd = [] ∧ adaptiveHeights sd = []) := by
  have hbh := byHeight_spec sd
  unfold getVideoInfoFallback
  cases hqs : sortByHeight ((byHeight sd).map
      (fun p => ⟨p.2.label, p.1, p.2.hasAudio, none⟩)) with
  | nil =>
    have hnil : (byHeight sd).map
        (fun p => (⟨p.2.label, p.1, p.2.hasAudio, none⟩ : VideoQuality)) = [] := by
      have hp := sortByHeight_perm ((byHeight sd).map
        (fun p => ⟨p.2.label, p.1, p.2.hasAudio, none⟩))
      rw [hqs] at hp
      exact (hp.symm).eq_nil
    have hm : byHeight sd = [] := List.map_eq_nil_iff.mp hnil
    have hkeys : mapKeys (byHeight sd) = [] := by rw [hm]; rfl
    constructor
    · rw [List.eq_nil_iff_forall_not_mem]
      intro h hmem
      have := (hbh.2.2 h).mpr (Or.inl hmem)
      rw [hkeys] at this
      exact absurd this (List.not_mem_nil h)
    · rw [List.eq_nil_iff_forall_not_mem]
      intro h hmem
      have := (hbh.2.2 h).mpr (Or.inr hmem)
      rw [hkeys] at this
      exact absurd this (List.not_mem_nil h)
  | cons q0 rest =>
    have hperm := sortByHeight_perm ((byHeight sd).map
      (fun p => ⟨p.2.label, p.1, p.2.hasAudio, none⟩))
    rw [hqs] at hperm
    have hmemq : ∀ q, q ∈ q0 :: rest ↔ ∃ p ∈ byHeight sd,
        (⟨p.2.label, p.1, p.2.hasAudio, none⟩ : VideoQuality) = q := by
      intro q
      rw [hperm.mem_iff, List.mem_map]
    have hdmem : reduceClosest720 q0 rest ∈ q0 :: rest := by
      rcases reduceClosest720_mem q0 rest with h | h
      · rw [h]; exact List.mem_cons_self q0 rest
      · exact List.mem_cons_of_mem q0 h
    have hdkey : (reduceClosest720 q0 rest).height ∈ mapKeys (byHeight sd) := by
      obtain ⟨p, hp, hpq⟩ := (hmemq _).mp hdmem
      have : p.1 = (reduceClosest720 q0 rest).height := by rw [← hpq]
      rw [← this]
      exact List.mem_map_of_mem (fun q => q.1) hp
    obtain ⟨e, hget, hmemE⟩ := mapGet_of_mem_keys hdkey
    simp only [hget]
    refine ⟨?_, ?_, ?_, ?_, ?_, ?_, ?_⟩
    · intro q hq
      obtain ⟨p, hp, hpq⟩ := (hmemq q).mp hq
      have hh : q.height = p.1 := by rw [← hpq]
      have ha : q.hasAudio = p.2.hasAudio := by rw [← hpq]
      have hkey : p.1 ∈ mapKeys (byHeight sd) :=
        List.mem_map_of_mem (fun q => q.1) hp
      rw [hh, ha]
      exact ⟨(hbh.2.2 p.1).mp hkey, hbh.2.1 p hp⟩
    · intro h hh
      have hkey : h ∈ mapKeys (byHeight sd) := (hbh.2.2 h).mpr hh
      rw [mapKeys, List.mem_map] at hkey
      obtain ⟨p, hp, hph⟩ := hkey
      refine ⟨⟨p.2.label, p.1, p.2.hasAudio, none⟩, (hmemq _).mpr ⟨p, hp, rfl⟩, hph⟩
    · have := sortByHeight_sorted ((byHeight sd).map
        (fun p => ⟨p.2.label, p.1, p.2.hasAudio, none⟩))
      rwa [hqs] at this
    · have hmapeq : ((byHeight sd).map
          (fun p => (⟨p.2.label, p.1, p.2.hasAudio, none⟩ : VideoQuality))).map
            (fun q => q.height) = mapKeys (byHeight sd) := by
        rw [List.map_map]
        rfl
      have hpm := hperm.map (fun q => q.height)
      rw [hmapeq] at hpm
      exact (hpm.nodup_iff).mpr hbh.1
    · exact ⟨reduceClosest720 q0 rest, hdmem, rfl⟩
    · intro q hq
      rcases List.mem_cons.mp hq with hqx | hq
      · cases hqx
        exact (reduceClosest720_min q0 rest).1
      · exact (reduceClosest720_min q0 rest).2 q hq
    · exact hbh.2.1 ((reduceClosest720 q0 rest).height, e) hmemE

/-- Concrete streaming data for the spec's worked example: one muxed
format at 480 and one adaptive video-only format at 1080. -/
def sdExample480 : InnertubeStreamingData :=
  ⟨some [⟨true, true, some 480, some "video/mp4", some "480p"⟩],
    some [⟨true, false, some 1080, some "video/mp4", some "1080p"⟩]⟩

/-- **C3, witness**: on heights 480 and 1080 the fallback picks default
height 480 (distance 240 beats 1080's distance 360), the ladder is
exactly 480 then 1080, and the minimization conjunct of the claim
theorem holds at this input. -/
theorem getVideoInfo_fallback_ladder_witness :
    ((getVideoInfoFallback sdExample480).map (fun r => r.defaultHeight) =
      some 480) ∧
    ((getVideoInfoFallback sdExample480).map
        (fun r => r.qualities.map (fun q => q.height)) = some [480, 1080]) ∧
    (match getVideoInfoFallback sdExample480 with
      | some r => ∀ q ∈ r.qualities,
          distTo720 r.defaultHeight ≤ distTo720 q.height
      | none => muxedHeights sdExample480 = [] ∧
          adaptiveHeights sdExample480 = []) := by
  refine ⟨by decide, by decide, ?_⟩
  have h := getVideoInfo_fallback_ladder sdExample480
  revert h
  cases getVideoInfoFallback sdExample480 with
  | some r => intro h; exact h.2.2.2.2.2.1
  | none => intro h; exact h

-- ═══════════════════════════════════════════════════════════════════
-- § C5: `parseHlsQualities` (src/index.ts:504-527)
-- ═══════════════════════════════════════════════════════════════════

/-- Try `/CODECS="([^"]+)"/` at the head of the character list: the
literal `CODECS="`, one or more non-quote characters, a closing quote. -/
def codecsMatchAt (l : List Char) : Option (List Char) :=
  if charsStartWith l "CODECS=\"".toList then
    let rest := l.drop "CODECS=\"".toList.length
    let cap := rest.takeWhile (fun c => !(c == '"'))
    if cap.isEmpty then none
    else
      match rest.drop cap.length with
      | '"' :: _ => some cap
      | _ => none
  else none

/-- Left-to-right search for `/CODECS="([^"]+)"/` (JS `line.match`). -/
def searchCodecs : List Char → Option (List Char)
  | [] => none
  | c :: t => codecsMatchAt (c :: t) <|> searchCodecs t

/-- Try `/RESOLUTION=(\d+)x(\d+)/` at the head: the literal, digits,
`x`, digits; returns both digit captures. -/
def resolutionMatchAt (l : List Char) : Option (List Char × List Char) :=
  if charsStartWith l "RESOLUTION=".toList then
    let rest := l.drop "RESOLUTION=".toList.length
    let w := rest.takeWhile Char.isDigit
    if w.isEmpty then none
    else
      match rest.drop w.length with
      | 'x' :: rest2 =>
        let h := rest2.takeWhile Char.isDigit
        if h.isEmpty then none else some (w, h)
      | _ => none
  else none

/-- Left-to-right search for `/RESOLUTION=(\d+)x(\d+)/`. -/
def searchResolution : List Char → Option (List Char × List Char)
  | [] => none
  | c :: t => resolutionMatchAt (c :: t) <|> searchResolution t

/-- Try `/BANDWIDTH=(\d+)/` at the head. -/
def bandwidthMatchAt (l : List Char) : Option (List Char) :=
  if charsStartWith l "BANDWIDTH=".toList then
    let d := (l.drop "BANDWIDTH=".toList.length).takeWhile Char.isDigit
    if d.isEmpty then none else some d
  else none

/-- Left-to-right search for `/BANDWIDTH=(\d+)/`. -/
def searchBandwidth : List Char → Option (List Char)
  | [] => none
  | c :: t => bandwidthMatchAt (c :: t) <|> searchBandwidth t

/-- One loop iteration of `parseHlsQualities` up to attribute
extraction, applied to the trimmed line: `continue` unless the line is a
stream-info header; `continue` when a CODECS list is present and does
not contain `avc1`; `continue` unless both RESOLUTION and BANDWIDTH
parse; otherwise yield `(height, bitrate)` (`parseInt(resMatch[2])`,
`parseInt(bwMatch[1])`). -/
def acceptStreamInf (line : String) : Option (Nat × Nat) :=
  if !(jsStartsWith line "#EXT-X-STREAM-INF:") then none
  else if
    (match searchCodecs line.toList with
      | some cap => !(charsInclude cap "avc1".toList)
      | none => false) then none
  else
    match searchResolution line.toList, searchBandwidth line.toList with
    | some res, some bw => some (digitsToNat res.2, digitsToNat bw)
    | _, _ => none

/-- A stream-info line whose CODECS attribute is present and does not
contain the required `avc1` family — the lines claim C5 says are
skipped. -/
def hlsBadCodec (l : String) : Bool :=
  jsStartsWith (jsTrim l) "#EXT-X-STREAM-INF:" &&
    (match searchCodecs (jsTrim l).toList with
      | some cap => !(charsInclude cap "avc1".toList)
      | none => false)

/-- The `byHeight` update of `parseHlsQualities`: `const existing =
byHeight.get(height); if (!existing || (existing.bitrate ?? 0) <
bitrate) byHeight.set(height, {label, height, hasAudio: true,
bitrate})`. -/
def hlsFoldStep (m : List (Nat × VideoQuality)) (rawLine : String) :
    List (Nat × VideoQuality) :=
  match acceptStreamInf (jsTrim rawLine) with
  | none => m
  | some (height, bitrate) =>
    match mapGet m height with
    | none =>
      mapSet m height ⟨toString height ++ "p", height, true, some bitrate⟩
    | some existing =>
      if existing.bitrate.getD 0 < bitrate then
        mapSet m height ⟨toString height ++ "p", height, true, some bitrate⟩
      else m

/-- The whole line loop of `parseHlsQualities` plus the final
`Array.from(byHeight.values()).sort((a, b) => a.height - b.height)`. -/
def parseHlsLines (ls : List String) : List VideoQuality :=
  sortByHeight ((ls.foldl hlsFoldStep []).map (fun p => p.2))

/-- `parseHlsQualities` (src/index.ts:504-527), from the fetched
manifest text (the fetch itself and the `_hlsManifestCache` assignment
are modelled separately). -/
def parseHlsQualities (text : String) : List VideoQuality :=
  parseHlsLines (jsSplitLines text)

/-- The `(height, bandwidth)` pairs of the lines the loop accepts. -/
def acceptedPairs (ls : List String) : List (Nat × Nat) :=
  ls.filterMap (fun l => acceptStreamInf (jsTrim l))

/-- Bandwidths of the accepted pairs at one height. -/
def bwsAt (h : Nat) (pairs : List (Nat × Nat)) : List Nat :=
  (pairs.filter (fun p => p.1 == h)).map (fun p => p.2)

/-- Maximum of a bandwidth list (0 for the empty list). -/
def maxOf (l : List Nat) : Nat :=
  l.foldl max 0

theorem mapGet_eq_none_iff {β : Type} {m : List (Nat × β)} {k : Nat} :
    mapGet m k = none ↔ k ∉ mapKeys m := by
  unfold mapGet
  rw [Option.map_eq_none', List.find?_eq_none]
  simp only [mapKeys, List.mem_map, beq_iff_eq]
  constructor
  · rintro hall ⟨p, hp, hpk⟩
    exact hall p hp hpk
  · intro hno p hp hpk
    exact hno ⟨p, hp, hpk⟩

theorem mapGet_some_mem {β : Type} {m : List (Nat × β)} {k : Nat} {v : β}
    (h : mapGet m k = some v) : (k, v) ∈ m := by
  unfold mapGet at h
  cases hf : m.find? (fun p => p.1 == k) with
  | none => rw [hf] at h; exact absurd h (by simp)
  | some p =>
    rw [hf] at h
    have hpk : p.1 = k := by simpa using List.find?_some hf
    have hpv : p.2 = v := by simpa using h
    have := List.mem_of_find?_eq_some hf
    have hpe : p = (k, v) := by
      obtain ⟨p1, p2⟩ := p
      simp only at hpk hpv
      rw [hpk, hpv]
    rwa [hpe] at this

theorem mem_mapSet_strong {β : Type} {m : List (Nat × β)} {k : Nat} {v : β}
    {p : Nat × β} (hp : p ∈ mapSet m k v) :
    (p ∈ m ∧ p.1 ≠ k) ∨ p = (k, v) := by
  by_cases h : mapHasKey m k = true
  · simp only [mapSet, h, if_true, List.mem_map] at hp
    obtain ⟨q, hq, hq2⟩ := hp
    by_cases hqk : q.1 = k
    · rw [if_pos (by simp [hqk])] at hq2
      exact Or.inr hq2.symm
    · rw [if_neg (by simp [hqk])] at hq2
      exact Or.inl ⟨hq2 ▸ hq, hq2 ▸ hqk⟩
  · unfold mapSet at hp
    rw [if_neg h] at hp
    rcases List.mem_append.mp hp with hp | hp
    · refine Or.inl ⟨hp, fun hpk => h ?_⟩
      rw [mapHasKey_iff, mapKeys, List.mem_map]
      exact ⟨p, hp, hpk⟩
    · exact Or.inr (by simpa using hp)

theorem keys_nodup_value_unique {β : Type} {m : List (Nat × β)}
    (hnd : (mapKeys m).Nodup) {k : Nat} {a b : β}
    (ha : (k, a) ∈ m) (hb : (k, b) ∈ m) : a = b := by
  induction m with
  | nil => exact absurd ha (List.not_mem_nil _)
  | cons q rest ih =>
    rw [mapKeys, List.map_cons, List.nodup_cons] at hnd
    rcases List.mem_cons.mp ha with ha1 | ha1 <;>
      rcases List.mem_cons.mp hb with hb1 | hb1
    · exact (Prod.mk.inj (ha1.trans hb1.symm)).2
    · exfalso
      apply hnd.1
      rw [← ha1]
      exact List.mem_map_of_mem (fun p => p.1) hb1
    · exfalso
      apply hnd.1
      rw [← hb1]
      exact List.mem_map_of_mem (fun p => p.1) ha1
    · exact ih hnd.2 ha1 hb1

theorem le_foldl_max (a : Nat) (l : List Nat) : a ≤ l.foldl max a := by
  induction l generalizing a with
  | nil => exact le_refl a
  | cons x xs ih => exact le_trans (Nat.le_max_left a x) (ih (max a x))

theorem mem_le_foldl_max (a : Nat) (l : List Nat) :
    ∀ b ∈ l, b ≤ l.foldl max a := by
  induction l generalizing a with
  | nil => intro b hb; exact absurd hb (List.not_mem_nil b)
  | cons x xs ih =>
    intro b hb
    rcases List.mem_cons.mp hb with hb1 | hb1
    · rw [hb1, List.foldl_cons]
      exact le_trans (Nat.le_max_right a x) (le_foldl_max _ xs)
    · exact ih (max a x) b hb1

theorem foldl_max_mem (a : Nat) (l : List Nat) :
    l.foldl max a = a ∨ l.foldl max a ∈ l := by
  induction l generalizing a with
  | nil => exact Or.inl rfl
  | cons x xs ih =>
    rw [List.foldl_cons]
    rcases ih (max a x) with h | h
    · rcases max_choice a x with hm | hm
      · exact Or.inl (h.trans hm)
      · right
        rw [h, hm]
        exact List.mem_cons_self x xs
    · exact Or.inr (List.mem_cons_of_mem x h)

theorem maxOf_append_singleton (l : List Nat) (b : Nat) :
    maxOf (l ++ [b]) = max (maxOf l) b := by
  unfold maxOf
  rw [List.foldl_append]
  rfl

theorem bwsAt_append (h : Nat) (p1 p2 : List (Nat × Nat)) :
    bwsAt h (p1 ++ p2) = bwsAt h p1 ++ bwsAt h p2 := by
  unfold bwsAt
  rw [List.filter_append, List.map_append]

theorem bwsAt_singleton (h k bw : Nat) :
    bwsAt h [(k, bw)] = if h = k then [bw] else [] := by
  unfold bwsAt
  by_cases hk : h = k
  · subst hk
    simp
  · simp [hk, Ne.symm hk]

theorem mem_bwsAt (h b : Nat) (pairs : List (Nat × Nat)) :
    b ∈ bwsAt h pairs ↔ (h, b) ∈ pairs := by
  unfold bwsAt
  rw [List.mem_map]
  constructor
  · rintro ⟨p, hp, hpb⟩
    have h1 := List.mem_filter.mp hp
    have hpk : p.1 = h := by simpa using h1.2
    have hpe : p = (h, b) := by
      obtain ⟨p1, p2⟩ := p
      simp only at hpk hpb
      rw [hpk, hpb]
    rw [hpe] at h1
    exact h1.1
  · intro hp
    exact ⟨(h, b), List.mem_filter.mpr ⟨hp, by simp⟩, rfl⟩

/-- Invariant of the `byHeight` map of `parseHlsQualities` relative to
the accepted `(height, bandwidth)` pairs processed so far: duplicate-free
keys; every entry is the `{label: h+"p", height: h, hasAudio: true,
bitrate: max bandwidth seen at h}` record; a key is present exactly when
some accepted pair carries that height. -/
def HlsInv (m : List (Nat × VideoQuality)) (pairs : List (Nat × Nat)) : Prop :=
  (mapKeys m).Nodup ∧
  (∀ p ∈ m,
    p.2 = ⟨toString p.1 ++ "p", p.1, true, some (maxOf (bwsAt p.1 pairs))⟩ ∧
    bwsAt p.1 pairs ≠ []) ∧
  (∀ h, h ∈ mapKeys m ↔ bwsAt h pairs ≠ [])

theorem acceptedPairs_cons (l : String) (ls : List String) :
    acceptedPairs (l :: ls) = acceptedPairs [l] ++ acceptedPairs ls := by
  unfold acceptedPairs
  rw [List.filterMap_cons, List.filterMap_cons]
  cases acceptStreamInf (jsTrim l) <;> simp

theorem hlsFoldStep_inv (m : List (Nat × VideoQuality))
    (pairs : List (Nat × Nat)) (line : String) (hInv : HlsInv m pairs) :
    HlsInv (hlsFoldStep m line) (pairs ++ acceptedPairs [line]) := by
  obtain ⟨hnd, hent, hkeys⟩ := hInv
  unfold hlsFoldStep
  cases hacc : acceptStreamInf (jsTrim line) with
  | none =>
    have hap : acceptedPairs [line] = [] := by
      simp [acceptedPairs, hacc]
    rw [hap, List.append_nil]
    exact ⟨hnd, hent, hkeys⟩
  | some hb =>
    obtain ⟨h, bw⟩ := hb
    have hap : acceptedPairs [line] = [(h, bw)] := by
      simp [acceptedPairs, hacc]
    rw [hap]
    dsimp only
    have hb_eq : ∀ h', bwsAt h' (pairs ++ [(h, bw)]) =
        bwsAt h' pairs ++ (if h' = h then [bw] else []) := by
      intro h'
      rw [bwsAt_append, bwsAt_singleton]
    cases hget : mapGet m h with
    | none =>
      dsimp only
      have hnotin : h ∉ mapKeys m := mapGet_eq_none_iff.mp hget
      have hbw_nil : bwsAt h pairs = [] := by
        by_contra hne
        exact hnotin ((hkeys h).mpr hne)
      refine ⟨mapKeys_nodup_mapSet _ hnd, ?_, ?_⟩
      · intro p hp
        rcases mem_mapSet_strong hp with ⟨hpm, hpk⟩ | hpv
        · rw [hb_eq p.1, if_neg hpk, List.append_nil]
          exact hent p hpm
        · rw [hpv]
          simp only
          rw [hb_eq h, if_pos rfl, hbw_nil, List.nil_append]
          constructor
          · have : maxOf [bw] = bw := by simp [maxOf]
            rw [this]
          · simp
      · intro h'
        rw [mem_mapKeys_mapSet, hkeys h', hb_eq h']
        by_cases hh : h' = h
        · subst hh
          simp [hbw_nil]
        · simp [hh]
    | some existing =>
      dsimp only
      have hpair : (h, existing) ∈ m := mapGet_some_mem hget
      have hex := hent (h, existing) hpair
      dsimp only at hex
      have hbit : existing.bitrate.getD 0 = maxOf (bwsAt h pairs) := by
        rw [hex.1]
        rfl
      by_cases hlt : existing.bitrate.getD 0 < bw
      · rw [if_pos hlt]
        refine ⟨mapKeys_nodup_mapSet _ hnd, ?_, ?_⟩
        · intro p hp
          rcases mem_mapSet_strong hp with ⟨hpm, hpk⟩ | hpv
          · rw [hb_eq p.1, if_neg hpk, List.append_nil]
            exact hent p hpm
          · rw [hpv]
            simp only
            rw [hb_eq h, if_pos rfl, maxOf_append_singleton]
            constructor
            · rw [Nat.max_eq_right (le_of_lt (hbit ▸ hlt))]
            · simp
        · intro h'
          rw [mem_mapKeys_mapSet, hkeys h', hb_eq h']
          by_cases hh : h' = h
          · subst hh
            simp
          · simp [hh]
      · rw [if_neg hlt]
        refine ⟨hnd, ?_, ?_⟩
        · intro p hp
          by_cases hpk : p.1 = h
          · have hpeta : p = (h, p.2) := by
              obtain ⟨p1, p2⟩ := p
              simp only at hpk
              rw [hpk]
            have hval : p.2 = existing :=
              keys_nodup_value_unique hnd (hpeta ▸ hp) hpair
            rw [hb_eq p.1, hpk, if_pos rfl, maxOf_append_singleton]
            have hle : bw ≤ maxOf (bwsAt h pairs) := by
              rw [← hbit]
              exact le_of_not_lt hlt
            rw [Nat.max_eq_left hle]
            constructor
            · rw [hval, hex.1]
            · simp
          · rw [hb_eq p.1, if_neg hpk, List.append_nil]
            exact hent p hp
        · intro h'
          rw [hkeys h', hb_eq h']
          by_cases hh : h' = h
          · subst hh
            simp [hex.2]
          · simp [hh]

theorem hlsFold_inv (ls : List String) :
    ∀ m pairs, HlsInv m pairs →
      HlsInv (ls.foldl hlsFoldStep m) (pairs ++ acceptedPairs ls) := by
  induction ls with
  | nil =>
    intro m pairs h
    have : acceptedPairs ([] : List String) = [] := rfl
    rw [this, List.append_nil]
    exact h
  | cons l ls ih =>
    intro m pairs h
    rw [List.foldl_cons, acceptedPairs_cons, ← List.append_assoc]
    exact ih (hlsFoldStep m l) (pairs ++ acceptedPairs [l])
      (hlsFoldStep_inv m pairs l h)

theorem maxOf_mem {l : List Nat} (hne : l ≠ []) : maxOf l ∈ l := by
  rcases foldl_max_mem 0 l with h | h
  · match l with
    | [] => exact absurd rfl hne
    | b :: bs =>
      have hb : b ≤ maxOf (b :: bs) :=
        mem_le_foldl_max 0 (b :: bs) b (List.mem_cons_self b bs)
      have h' : maxOf (b :: bs) = 0 := h
      have hb0 : b = 0 := Nat.le_zero.mp (h' ▸ hb)
      rw [h', ← hb0]
      exact List.mem_cons_self b bs
  · exact h

theorem acceptStreamInf_of_badCodec {l : String}
    (h : hlsBadCodec l = true) : acceptStreamInf (jsTrim l) = none := by
  unfold hlsBadCodec at h
  rw [Bool.and_eq_true] at h
  unfold acceptStreamInf
  rw [h.1, h.2]
  rfl

/-- **C5 (confirmed).**  `parseHlsQualities`: (1) a stream-info line
whose CODECS attribute is present and lacks `avc1` contributes nothing —
deleting it from the manifest's line list leaves the result unchanged,
even if it is the only line at its resolution; (2) every emitted entry
carries the highest bandwidth among the accepted stream-info lines at
its height; (3) exactly one entry per unique accepted height, sorted
ascending by height. -/
theorem parseHlsQualities_spec (text : String) :
    (∀ ls1 bad ls2, hlsBadCodec bad = true →
      parseHlsLines (ls1 ++ bad :: ls2) = parseHlsLines (ls1 ++ ls2)) ∧
    parseHlsQualities text = parseHlsLines (jsSplitLines text) ∧
    (∀ q ∈ parseHlsQualities text, ∃ bw, q.bitrate = some bw ∧
      (q.height, bw) ∈ acceptedPairs (jsSplitLines text) ∧
      ∀ bw2, (q.height, bw2) ∈ acceptedPairs (jsSplitLines text) → bw2 ≤ bw) ∧
    (parseHlsQualities text).Pairwise (fun a b => a.height ≤ b.height) ∧
    ((parseHlsQualities text).map (fun q => q.height)).Nodup ∧
    (∀ h, (∃ q ∈ parseHlsQualities text, q.height = h) ↔
      ∃ bw, (h, bw) ∈ acceptedPairs (jsSplitLines text)) := by
  have hinv : HlsInv ((jsSplitLines text).foldl hlsFoldStep [])
      (acceptedPairs (jsSplitLines text)) := by
    have h0 : HlsInv [] [] := by
      refine ⟨List.nodup_nil, ?_, ?_⟩
      · intro p hp
        exact absurd hp (List.not_mem_nil p)
      · intro h
        constructor
        · intro hmem
          exact absurd hmem (List.not_mem_nil h)
        · intro hne
          exact absurd rfl hne
    have := hlsFold_inv (jsSplitLines text) [] [] h0
    rwa [List.nil_append] at this
  obtain ⟨hnd, hent, hkeys⟩ := hinv
  have hperm := sortByHeight_perm
    (((jsSplitLines text).foldl hlsFoldStep []).map (fun p => p.2))
  have hmemq : ∀ q, q ∈ parseHlsQualities text ↔
      ∃ p ∈ (jsSplitLines text).foldl hlsFoldStep [], p.2 = q := by
    intro q
    unfold parseHlsQualities parseHlsLines
    rw [hperm.mem_iff, List.mem_map]
  refine ⟨?_, rfl, ?_, ?_, ?_, ?_⟩
  · intro ls1 bad ls2 hbad
    unfold parseHlsLines
    rw [List.foldl_append, List.foldl_append, List.foldl_cons]
    have hstep : hlsFoldStep (List.foldl hlsFoldStep [] ls1) bad =
        List.foldl hlsFoldStep [] ls1 := by
      unfold hlsFoldStep
      rw [acceptStreamInf_of_badCodec hbad]
    rw [hstep]
  · intro q hq
    obtain ⟨p, hp, hpq⟩ := (hmemq q).mp hq
    have he := hent p hp
    refine ⟨maxOf (bwsAt p.1 (acceptedPairs (jsSplitLines text))), ?_, ?_, ?_⟩
    · rw [← hpq, he.1]
    · have hh : q.height = p.1 := by rw [← hpq, he.1]
      rw [hh]
      exact (mem_bwsAt _ _ _).mp (maxOf_mem he.2)
    · intro bw2 hbw2
      have hh : q.height = p.1 := by rw [← hpq, he.1]
      rw [hh] at hbw2
      exact mem_le_foldl_max 0 _ bw2 ((mem_bwsAt _ _ _).mpr hbw2)
  · exact sortByHeight_sorted _
  · have hmapeq : ((((jsSplitLines text).foldl hlsFoldStep []).map
        (fun p => p.2)).map (fun q => q.height)) =
        mapKeys ((jsSplitLines text).foldl hlsFoldStep []) := by
      rw [List.map_map]
      refine List.map_congr_left ?_
      intro p hp
      show p.2.height = p.1
      rw [(hent p hp).1]
    have hpm := hperm.map (fun q => q.height)
    rw [hmapeq] at hpm
    exact hpm.nodup_iff.mpr hnd
  · intro h
    constructor
    · rintro ⟨q, hq, hqh⟩
      obtain ⟨p, hp, hpq⟩ := (hmemq q).mp hq
      have he := hent p hp
      have hh : p.1 = h := by
        rw [← hqh, ← hpq, he.1]
      rw [← hh]
      match hbp : bwsAt p.1 (acceptedPairs (jsSplitLines text)) with
      | [] => exact absurd hbp he.2
      | b :: bs =>
        exact ⟨b, (mem_bwsAt _ _ _).mp (by rw [hbp]; exact List.mem_cons_self b bs)⟩
    · rintro ⟨bw, hbw⟩
      have hbne : bwsAt h (acceptedPairs (jsSplitLines text)) ≠ [] := by
        intro hnil
        have := (mem_bwsAt h bw _).mpr hbw
        rw [hnil] at this
        exact absurd this (List.not_mem_nil bw)
      have hkey := (hkeys h).mpr hbne
      rw [mapKeys, List.mem_map] at hkey
      obtain ⟨p, hp, hph⟩ := hkey
      refine ⟨p.2, (hmemq p.2).mpr ⟨p, hp, rfl⟩, ?_⟩
      rw [(hent p hp).1, hph]

/-- The manifest of the spec's HLS example: two `avc1` variants at
360 (bandwidths 1000 and 2000) and one `vp09`-only variant at 720. -/
def hlsManifestExample : String :=
  "#EXTM3U\n#EXT-X-STREAM-INF:BANDWIDTH=1000,RESOLUTION=640x360,CODECS=\"avc1\"\nu1\n#EXT-X-STREAM-INF:BANDWIDTH=2000,RESOLUTION=640x360,CODECS=\"avc1\"\nu2\n#EXT-X-STREAM-INF:BANDWIDTH=500,RESOLUTION=1280x720,CODECS=\"vp09\"\nu3"

/-- **C5, witness**: on the example manifest only the higher-bandwidth
360 entry survives and the `vp09`-only 720 entry is dropped even though
it is alone at its resolution; deleting that bad-codec line leaves the
parse unchanged. -/
theorem parseHlsQualities_spec_witness :
    parseHlsQualities hlsManifestExample =
      [⟨"360p", 360, true, some 2000⟩] ∧
    hlsBadCodec
      "#EXT-X-STREAM-INF:BANDWIDTH=500,RESOLUTION=1280x720,CODECS=\"vp09\"" =
      true ∧
    parseHlsLines (["#EXTM3U"] ++
      "#EXT-X-STREAM-INF:BANDWIDTH=500,RESOLUTION=1280x720,CODECS=\"vp09\"" ::
      []) = parseHlsLines (["#EXTM3U"] ++ []) := by
  refine ⟨by decide, by decide, ?_⟩
  exact (parseHlsQualities_spec hlsManifestExample).1 ["#EXTM3U"]
    "#EXT-X-STREAM-INF:BANDWIDTH=500,RESOLUTION=1280x720,CODECS=\"vp09\"" []
    (by decide)

-- ═══════════════════════════════════════════════════════════════════
-- § C6 / C10: `getFilteredHlsUrl` (src/index.ts:293-316)
-- ═══════════════════════════════════════════════════════════════════

/-- The `_hlsManifestCache` slot: `{contentId, text, hlsUrl}`. -/
structure HlsManifestCache where
  contentId : String
  text : String
  hlsUrl : String
deriving DecidableEq

/-- `line.startsWith('#EXT-X-STREAM-INF:')` on the trimmed line. -/
def isStreamInfLine (l : String) : Bool :=
  jsStartsWith (jsTrim l) "#EXT-X-STREAM-INF:"

/-- The URI test of the inner scan: `next && !next.startsWith('#')` on
the trimmed line (nonempty and not a tag/comment). -/
def isUriLine (l : String) : Bool :=
  !(jsTrim l == "") && !(jsStartsWith (jsTrim l) "#")

/-- `isH264 && matchesHeight` for one stream-info line: no CODECS
attribute or one containing `avc1`, and a RESOLUTION whose second
capture equals `String(height)` exactly. -/
def streamInfOk (height : Nat) (l : String) : Bool :=
  (match searchCodecs (jsTrim l).toList with
    | some cap => charsInclude cap "avc1".toList
    | none => true) &&
  (match searchResolution (jsTrim l).toList with
    | some res => String.mk res.2 == toString height
    | none => false)

/-- The inner `for (let j = i + 1; ...)` scan: the first URI line, with
the lines after it (the lines before it are skipped by `i = j`). -/
def findUri : List String → Option (String × List String)
  | [] => none
  | x :: xs =>
    if isUriLine x then some (x, xs)
    else
      match findUri xs with
      | some (u, rest) => some (u, rest)
      | none => none

theorem findUri_length :
    ∀ {ls : List String} {u : String} {rest : List String},
      findUri ls = some (u, rest) → rest.length < ls.length := by
  intro ls
  induction ls with
  | nil => intro u rest h; exact absurd h (by simp [findUri])
  | cons x xs ih =>
    intro u rest h
    unfold findUri at h
    by_cases hx : isUriLine x = true
    · rw [if_pos hx] at h
      rw [Option.some.injEq, Prod.mk.injEq] at h
      rw [← h.2]
      exact Nat.lt_succ_self xs.length
    · rw [if_neg hx] at h
      cases hf : findUri xs with
      | none => rw [hf] at h; exact absurd h (by simp)
      | some p =>
        rw [hf] at h
        obtain ⟨u', rest'⟩ := p
        rw [Option.some.injEq, Prod.mk.injEq] at h
        rw [← h.2]
        exact Nat.lt_succ_of_lt (ih hf)

/-- The filtering loop of `getFilteredHlsUrl` (src/index.ts:299-313):
non-stream-info lines pass through; a stream-info line that is
codec-compatible and matches the requested height is kept together with
its following URI line (intervening blank/tag lines are skipped); a
non-matching stream-info line is dropped together with everything up to
and including its URI line; when no URI line follows, scanning resumes
at the next line. -/
def filterHls (height : Nat) : List String → List String
  | [] => []
  | l :: rest =>
    if !(isStreamInfLine l) then l :: filterHls height rest
    else
      match hf : findUri rest with
      | some (u, rest2) =>
        if streamInfOk height l then l :: u :: filterHls height rest2
        else filterHls height rest2
      | none =>
        if streamInfOk height l then l :: filterHls height rest
        else filterHls height rest
termination_by ls => ls.length
decreasing_by
  all_goals
    first
      | exact Nat.lt_succ_self _
      | exact Nat.lt_succ_of_lt (findUri_length hf)

/-- `getFilteredHlsUrl(height)` (src/index.ts:293-316): `null` when no
manifest is cached; otherwise split the cached text, filter, join, and
return `host.writeCacheFile`'s URI (`write` is the host capability). -/
def getFilteredHlsUrl (write : String → String → String)
    (cache : Option HlsManifestCache) (height : Nat) : Option String :=
  match cache with
  | none => none
  | some c =>
    some (write ("hls_" ++ toString height ++ "p.m3u8")
      (jsJoinLines (filterHls height (jsSplitLines c.text))))

/-- A master playlist in the shape real manifests have: every
stream-info header is immediately followed by its URI line. -/
def wellFormedHls : List String → Bool
  | [] => true
  | l :: rest =>
    if isStreamInfLine l then
      match rest with
      | [] => false
      | u :: rest' => isUriLine u && wellFormedHls rest'
    else wellFormedHls rest

/-- Reference filter following the spec's words for claim C6: pass every
non-stream-info line through verbatim, and keep a stream-info/URI pair
exactly when the header is codec-compatible and matches the requested
height. -/
def specFilterHls (height : Nat) : List String → List String
  | [] => []
  | l :: rest =>
    if isStreamInfLine l then
      match rest with
      | [] => if streamInfOk height l then [l] else []
      | u :: rest' =>
        (if streamInfOk height l then [l, u] else []) ++ specFilterHls height rest'
    else l :: specFilterHls height rest

theorem filterHls_nil (height : Nat) : filterHls height [] = [] := by
  simp [filterHls]

theorem filterHls_cons_pass {l : String} (height : Nat)
    (rest : List String) (h : isStreamInfLine l = false) :
    filterHls height (l :: rest) = l :: filterHls height rest := by
  conv_lhs => unfold filterHls
  rw [h]
  simp

theorem filterHls_cons_uri {l u : String} {rest rest2 : List String}
    (height : Nat) (h : isStreamInfLine l = true)
    (hu : findUri rest = some (u, rest2)) :
    filterHls height (l :: rest) =
      if streamInfOk height l then l :: u :: filterHls height rest2
      else filterHls height rest2 := by
  conv_lhs => unfold filterHls
  rw [h]
  simp only [Bool.not_true]
  rw [if_neg Bool.false_ne_true]
  split
  · next u' rest2' heq =>
    rw [hu, Option.some.injEq, Prod.mk.injEq] at heq
    rw [heq.1, heq.2]
  · next heq =>
    rw [hu] at heq
    exact absurd heq (by simp)

theorem filterHls_cons_nouri {l : String} {rest : List String}
    (height : Nat) (h : isStreamInfLine l = true)
    (hu : findUri rest = none) :
    filterHls height (l :: rest) =
      if streamInfOk height l then l :: filterHls height rest
      else filterHls height rest := by
  conv_lhs => unfold filterHls
  rw [h]
  simp only [Bool.not_true]
  rw [if_neg Bool.false_ne_true]
  split
  · next u' rest2' heq =>
    rw [hu] at heq
    exact absurd heq (by simp)
  · next heq => rfl

theorem charsStartWith_head {l : List Char} {c : Char} {cs : List Char}
    (h : charsStartWith l (c :: cs) = true) : charsStartWith l [c] = true := by
  match l with
  | [] => exact absurd h (by simp [charsStartWith])
  | x :: xs =>
    unfold charsStartWith at h
    rw [Bool.and_eq_true] at h
    unfold charsStartWith
    rw [h.1]
    cases xs <;> simp [charsStartWith]

theorem isUriLine_not_streamInf {l : String} (h : isUriLine l = true) :
    isStreamInfLine l = false := by
  unfold isUriLine at h
  rw [Bool.and_eq_true] at h
  cases hS : isStreamInfLine l with
  | false => rfl
  | true =>
    exfalso
    unfold isStreamInfLine jsStartsWith at hS
    have hhash : charsStartWith (jsTrim l).toList ("#".toList) = true :=
      charsStartWith_head hS
    have h2 : jsStartsWith (jsTrim l) "#" = false := by
      have := h.2
      rwa [Bool.not_eq_true'] at this
    unfold jsStartsWith at h2
    rw [hhash] at h2
    exact absurd h2 (by simp)

theorem findUri_isUri :
    ∀ {ls : List String} {u : String} {rest : List String},
      findUri ls = some (u, rest) → isUriLine u = true := by
  intro ls
  induction ls with
  | nil => intro u rest h; exact absurd h (by simp [findUri])
  | cons x xs ih =>
    intro u rest h
    unfold findUri at h
    by_cases hx : isUriLine x = true
    · rw [if_pos hx] at h
      rw [Option.some.injEq, Prod.mk.injEq] at h
      rw [← h.1]
      exact hx
    · rw [if_neg hx] at h
      cases hf : findUri xs with
      | none => rw [hf] at h; exact absurd h (by simp)
      | some p =>
        rw [hf] at h
        obtain ⟨u', rest'⟩ := p
        rw [Option.some.injEq, Prod.mk.injEq] at h
        rw [← h.1]
        exact ih hf

theorem findUri_sublist :
    ∀ {ls : List String} {u : String} {rest : List String},
      findUri ls = some (u, rest) → u ∈ ls ∧ ∀ x ∈ rest, x ∈ ls := by
  intro ls
  induction ls with
  | nil => intro u rest h; exact absurd h (by simp [findUri])
  | cons x xs ih =>
    intro u rest h
    unfold findUri at h
    by_cases hx : isUriLine x = true
    · rw [if_pos hx] at h
      rw [Option.some.injEq, Prod.mk.injEq] at h
      constructor
      · rw [← h.1]; exact List.mem_cons_self x xs
      · intro y hy
        rw [← h.2] at hy
        exact List.mem_cons_of_mem x hy
    · rw [if_neg hx] at h
      cases hf : findUri xs with
      | none => rw [hf] at h; exact absurd h (by simp)
      | some p =>
        rw [hf] at h
        obtain ⟨u', rest'⟩ := p
        rw [Option.some.injEq, Prod.mk.injEq] at h
        obtain ⟨hu, hrest⟩ := h
        subst hu
        subst hrest
        exact ⟨List.mem_cons_of_mem x (ih hf).1,
          fun y hy => List.mem_cons_of_mem x ((ih hf).2 y hy)⟩

theorem filterHls_subset (height : Nat) :
    ∀ n ls, ls.length ≤ n → ∀ l ∈ filterHls height ls, l ∈ ls := by
  intro n
  induction n with
  | zero =>
    intro ls hlen l hl
    match ls with
    | [] => rw [filterHls_nil] at hl; exact absurd hl (List.not_mem_nil l)
    | x :: xs => exact absurd hlen (by simp)
  | succ n ih =>
    intro ls hlen l hl
    match ls with
    | [] => rw [filterHls_nil] at hl; exact absurd hl (List.not_mem_nil l)
    | x :: xs =>
      have hxs : xs.length ≤ n := by
        rw [List.length_cons] at hlen
        omega
      by_cases hS : isStreamInfLine x = true
      · cases hfu : findUri xs with
        | some p =>
          obtain ⟨u, rest2⟩ := p
          have hr2 : rest2.length ≤ n :=
            le_trans (le_of_lt (findUri_length hfu)) hxs
          rw [filterHls_cons_uri height hS hfu] at hl
          by_cases hok : streamInfOk height x = true
          · rw [if_pos hok] at hl
            rcases List.mem_cons.mp hl with hx1 | hl2
            · rw [hx1]; exact List.mem_cons_self x xs
            · rcases List.mem_cons.mp hl2 with hu1 | hl3
              · rw [hu1]
                exact List.mem_cons_of_mem x (findUri_sublist hfu).1
              · exact List.mem_cons_of_mem x
                  ((findUri_sublist hfu).2 l (ih rest2 hr2 l hl3))
          · rw [if_neg hok] at hl
            exact List.mem_cons_of_mem x
              ((findUri_sublist hfu).2 l (ih rest2 hr2 l hl))
        | none =>
          rw [filterHls_cons_nouri height hS hfu] at hl
          by_cases hok : streamInfOk height x = true
          · rw [if_pos hok] at hl
            rcases List.mem_cons.mp hl with hx1 | hl2
            · rw [hx1]; exact List.mem_cons_self x xs
            · exact List.mem_cons_of_mem x (ih xs hxs l hl2)
          · rw [if_neg hok] at hl
            exact List.mem_cons_of_mem x (ih xs hxs l hl)
      · have hSf : isStreamInfLine x = false := by simpa using hS
        rw [filterHls_cons_pass height xs hSf] at hl
        rcases List.mem_cons.mp hl with hx1 | hl2
        · rw [hx1]; exact List.mem_cons_self x xs
        · exact List.mem_cons_of_mem x (ih xs hxs l hl2)

theorem filterHls_streamInf_ok (height : Nat) :
    ∀ n ls, ls.length ≤ n →
      ∀ l ∈ filterHls height ls, isStreamInfLine l = true →
        streamInfOk height l = true := by
  intro n
  induction n with
  | zero =>
    intro ls hlen l hl
    match ls with
    | [] => rw [filterHls_nil] at hl; exact absurd hl (List.not_mem_nil l)
    | x :: xs => exact absurd hlen (by simp)
  | succ n ih =>
    intro ls hlen l hl hlS
    match ls with
    | [] => rw [filterHls_nil] at hl; exact absurd hl (List.not_mem_nil l)
    | x :: xs =>
      have hxs : xs.length ≤ n := by
        rw [List.length_cons] at hlen
        omega
      by_cases hS : isStreamInfLine x = true
      · cases hfu : findUri xs with
        | some p =>
          obtain ⟨u, rest2⟩ := p
          have hr2 : rest2.length ≤ n :=
            le_trans (le_of_lt (findUri_length hfu)) hxs
          rw [filterHls_cons_uri height hS hfu] at hl
          by_cases hok : streamInfOk height x = true
          · rw [if_pos hok] at hl
            rcases List.mem_cons.mp hl with hx1 | hl2
            · rw [hx1]; exact hok
            · rcases List.mem_cons.mp hl2 with hu1 | hl3
              · exfalso
                rw [hu1] at hlS
                rw [isUriLine_not_streamInf (findUri_isUri hfu)] at hlS
                exact absurd hlS (by simp)
              · exact ih rest2 hr2 l hl3 hlS
          · rw [if_neg hok] at hl
            exact ih rest2 hr2 l hl hlS
        | none =>
          rw [filterHls_cons_nouri height hS hfu] at hl
          by_cases hok : streamInfOk height x = true
          · rw [if_pos hok] at hl
            rcases List.mem_cons.mp hl with hx1 | hl2
            · rw [hx1]; exact hok
            · exact ih xs hxs l hl2 hlS
          · rw [if_neg hok] at hl
            exact ih xs hxs l hl hlS
      · have hSf : isStreamInfLine x = false := by simpa using hS
        rw [filterHls_cons_pass height xs hSf] at hl
        rcases List.mem_cons.mp hl with hx1 | hl2
        · exfalso
          rw [hx1] at hlS
          rw [hSf] at hlS
          exact absurd hlS (by simp)
        · exact ih xs hxs l hl2 hlS

theorem filterHls_eq_spec_aux (height : Nat) :
    ∀ n ls, ls.length ≤ n → wellFormedHls ls = true →
      filterHls height ls = specFilterHls height ls := by
  intro n
  induction n with
  | zero =>
    intro ls hlen hwf
    match ls with
    | [] => rw [filterHls_nil]; rfl
    | x :: xs => exact absurd hlen (by simp)
  | succ n ih =>
    intro ls hlen hwf
    match ls with
    | [] => rw [filterHls_nil]; rfl
    | x :: xs =>
      have hxs : xs.length ≤ n := by
        rw [List.length_cons] at hlen
        omega
      by_cases hS : isStreamInfLine x = true
      · unfold wellFormedHls at hwf
        rw [if_pos hS] at hwf
        match xs, hwf, hxs with
        | [], hwf, hxs => exact absurd hwf (by simp)
        | u :: rest', hwf, hxs =>
          rw [Bool.and_eq_true] at hwf
          have hu : findUri (u :: rest') = some (u, rest') := by
            unfold findUri
            rw [if_pos hwf.1]
          rw [filterHls_cons_uri height hS hu]
          conv_rhs => unfold specFilterHls
          rw [if_pos hS]
          dsimp only
          have hr' : rest'.length ≤ n := by
            rw [List.length_cons] at hxs
            omega
          by_cases hok : streamInfOk height x = true
          · rw [if_pos hok, if_pos hok, ih rest' hr' hwf.2]
            simp
          · rw [if_neg hok, if_neg hok, ih rest' hr' hwf.2]
            simp
      · have hSf : isStreamInfLine x = false := by simpa using hS
        unfold wellFormedHls at hwf
        rw [hSf, if_neg Bool.false_ne_true] at hwf
        rw [filterHls_cons_pass height xs hSf]
        conv_rhs => unfold specFilterHls
        rw [hSf, if_neg Bool.false_ne_true, ih xs hxs hwf]

theorem specFilterHls_pass_aux (height : Nat) :
    ∀ n ls, ls.length ≤ n → wellFormedHls ls = true →
      ∀ l ∈ ls, isStreamInfLine l = false → isUriLine l = false →
        l ∈ specFilterHls height ls := by
  intro n
  induction n with
  | zero =>
    intro ls hlen hwf l hl
    match ls with
    | [] => exact absurd hl (List.not_mem_nil l)
    | x :: xs => exact absurd hlen (by simp)
  | succ n ih =>
    intro ls hlen hwf l hl hlS hlU
    match ls with
    | [] => exact absurd hl (List.not_mem_nil l)
    | x :: xs =>
      have hxs : xs.length ≤ n := by
        rw [List.length_cons] at hlen
        omega
      by_cases hS : isStreamInfLine x = true
      · unfold wellFormedHls at hwf
        rw [if_pos hS] at hwf
        match xs, hwf, hxs, hl with
        | [], hwf, hxs, hl => exact absurd hwf (by simp)
        | u :: rest', hwf, hxs, hl =>
          rw [Bool.and_eq_true] at hwf
          unfold specFilterHls
          rw [if_pos hS]
          dsimp only
          have hr' : rest'.length ≤ n := by
            rw [List.length_cons] at hxs
            omega
          rcases List.mem_cons.mp hl with hx1 | hl2
          · exfalso
            rw [hx1, hS] at hlS
            exact absurd hlS (by simp)
          · rcases List.mem_cons.mp hl2 with hu1 | hl3
            · exfalso
              rw [hu1, hwf.1] at hlU
              exact absurd hlU (by simp)
            · exact List.mem_append_right _
                (ih rest' hr' hwf.2 l hl3 hlS hlU)
      · have hSf : isStreamInfLine x = false := by simpa using hS
        unfold wellFormedHls at hwf
        rw [hSf, if_neg Bool.false_ne_true] at hwf
        unfold specFilterHls
        rw [hSf, if_neg Bool.false_ne_true]
        rcases List.mem_cons.mp hl with hx1 | hl2
        · rw [hx1]; exact List.mem_cons_self x _
        · exact List.mem_cons_of_mem x (ih xs hxs hwf l hl2 hlS hlU)

/-- A cached manifest exercising the C6 claim at height 720: one
stream-info header at 360 with a tag line between it and its URI. -/
def hlsCexText : String :=
  "#EXTM3U\n#EXT-X-STREAM-INF:RESOLUTION=640x360,CODECS=\"avc1\"\n#MEDIA-TAG\nu1"

/-- **C6, counterexample.**  The claim says the filtered manifest
contains all non-stream-info lines verbatim and exactly one
stream-info/URI pair at the requested height.  Filtering the cached
360-only manifest at height 720 yields a manifest with ZERO
stream-info/URI pairs, and the non-stream-info tag line `#MEDIA-TAG`
standing between the 360 header and its URI is dropped as well. -/
theorem getFilteredHlsUrl_cex :
    getFilteredHlsUrl (fun _ content => content)
        (some ⟨"vid", hlsCexText, "url"⟩) 720 = some "#EXTM3U" ∧
    (∀ l ∈ filterHls 720 (jsSplitLines hlsCexText),
      isStreamInfLine l = false) ∧
    "#MEDIA-TAG" ∈ jsSplitLines hlsCexText ∧
    isStreamInfLine "#MEDIA-TAG" = false ∧
    "#MEDIA-TAG" ∉ filterHls 720 (jsSplitLines hlsCexText) := by
  have hsplit : jsSplitLines hlsCexText = ["#EXTM3U",
      "#EXT-X-STREAM-INF:RESOLUTION=640x360,CODECS=\"avc1\"",
      "#MEDIA-TAG", "u1"] := by decide
  have hfilt : filterHls 720 (jsSplitLines hlsCexText) = ["#EXTM3U"] := by
    rw [hsplit]
    simp +decide [filterHls, findUri]
  refine ⟨?_, ?_, ?_, by decide, ?_⟩
  · unfold getFilteredHlsUrl
    dsimp only
    rw [hfilt]
    rfl
  · intro l hl
    rw [hfilt, List.mem_singleton] at hl
    rw [hl]
    decide
  · rw [hsplit]
    decide
  · rw [hfilt]
    decide

/-- **C6, amended.**  `getFilteredHlsUrl` with no cached manifest yields
`null`.  For a cached manifest in which every stream-info header is
immediately followed by its URI line, the filtered output keeps every
non-stream-info, non-URI line verbatim and keeps exactly the
stream-info/URI pairs whose header is codec-compatible and matches the
requested height — zero, one, or several such pairs, not always exactly
one (`specFilterHls` states precisely this).  Unconditionally, every
stream-info line in the output matches the requested height. -/
theorem getFilteredHlsUrl_spec (write : String → String → String)
    (height : Nat) :
    getFilteredHlsUrl write none height = none ∧
    (∀ ls, wellFormedHls ls = true →
      filterHls height ls = specFilterHls height ls) ∧
    (∀ ls, ∀ l ∈ filterHls height ls, isStreamInfLine l = true →
      streamInfOk height l = true) ∧
    (∀ ls, wellFormedHls ls = true → ∀ l ∈ ls, isStreamInfLine l = false →
      isUriLine l = false → l ∈ filterHls height ls) := by
  refine ⟨rfl, ?_, ?_, ?_⟩
  · intro ls hwf
    exact filterHls_eq_spec_aux height ls.length ls (le_refl _) hwf
  · intro ls l hl hS
    exact filterHls_streamInf_ok height ls.length ls (le_refl _) l hl hS
  · intro ls hwf l hl hS hU
    rw [filterHls_eq_spec_aux height ls.length ls (le_refl _) hwf]
    exact specFilterHls_pass_aux height ls.length ls (le_refl _) hwf l hl hS hU

/-- **C6, witness for the amended theorem** on a well-formed manifest. -/
theorem getFilteredHlsUrl_spec_witness :
    wellFormedHls ["#EXTM3U",
      "#EXT-X-STREAM-INF:RESOLUTION=640x360,CODECS=\"avc1\"", "u1"] = true ∧
    filterHls 360 ["#EXTM3U",
        "#EXT-X-STREAM-INF:RESOLUTION=640x360,CODECS=\"avc1\"", "u1"] =
      specFilterHls 360 ["#EXTM3U",
        "#EXT-X-STREAM-INF:RESOLUTION=640x360,CODECS=\"avc1\"", "u1"] ∧
    getFilteredHlsUrl (fun n _ => n) none 360 = none := by
  refine ⟨by decide, ?_, ?_⟩
  · exact (getFilteredHlsUrl_spec (fun n _ => n) 360).2.1 _ (by decide)
  · exact (getFilteredHlsUrl_spec (fun n _ => n) 360).1

/-- **C10 (confirmed).**  Whenever any manifest is cached,
`getFilteredHlsUrl` writes a cache file and returns `writeCacheFile`'s
URI — never absent — even when no stream-info line matches the requested
height, in which case the emitted manifest has zero variant streams
while (for well-shaped manifests) the pass-through tag lines are kept;
it never reads the cached `contentId`, so it filters whatever manifest
was cached last; `null` is returned exactly when no manifest has ever
been cached. -/
theorem getFilteredHlsUrl_always_some (write : String → String → String)
    (height : Nat) :
    (∀ c, getFilteredHlsUrl write (some c) height =
      some (write ("hls_" ++ toString height ++ "p.m3u8")
        (jsJoinLines (filterHls height (jsSplitLines c.text))))) ∧
    (∀ cache, getFilteredHlsUrl write cache height = none ↔ cache = none) ∧
    (∀ c1 c2 : HlsManifestCache, c1.text = c2.text →
      getFilteredHlsUrl write (some c1) height =
        getFilteredHlsUrl write (some c2) height) ∧
    (∀ ls, (∀ l ∈ ls, isStreamInfLine l = true →
        streamInfOk height l = false) →
      ∀ l ∈ filterHls height ls, isStreamInfLine l = false) ∧
    (∀ ls, wellFormedHls ls = true → ∀ l ∈ ls, isStreamInfLine l = false →
      isUriLine l = false → l ∈ filterHls height ls) := by
  refine ⟨fun c => rfl, ?_, ?_, ?_, ?_⟩
  · intro cache
    cases cache with
    | none => simp [getFilteredHlsUrl]
    | some c => simp [getFilteredHlsUrl]
  · intro c1 c2 htext
    unfold getFilteredHlsUrl
    dsimp only
    rw [htext]
  · intro ls hno l hl
    cases hS : isStreamInfLine l with
    | false => rfl
    | true =>
      exfalso
      have hok := filterHls_streamInf_ok height ls.length ls (le_refl _) l hl hS
      have hsub := filterHls_subset height ls.length ls (le_refl _) l hl
      rw [hno l hsub hS] at hok
      exact absurd hok (by simp)
  · intro ls hwf l hl hS hU
    rw [filterHls_eq_spec_aux height ls.length ls (le_refl _) hwf]
    exact specFilterHls_pass_aux height ls.length ls (le_refl _) hwf l hl hS hU

/-- **C10, witness**: the 360-only manifest cached under one content id
filtered at 720 still returns a URI whose manifest has zero variant
streams; the no-match hypothesis is discharged concretely. -/
theorem getFilteredHlsUrl_always_some_witness :
    getFilteredHlsUrl (fun _ content => content)
        (some ⟨"vid", hlsCexText, "url"⟩) 720 =
      some (jsJoinLines (filterHls 720 (jsSplitLines hlsCexText))) ∧
    (getFilteredHlsUrl (fun _ content => content)
        (some ⟨"vid", hlsCexText, "url"⟩) 720 = none ↔
      (some ⟨"vid", hlsCexText, "url"⟩ : Option HlsManifestCache) = none) ∧
    (∀ l ∈ filterHls 720 (jsSplitLines hlsCexText),
      isStreamInfLine l = false) := by
  have h := getFilteredHlsUrl_always_some (fun _ content => content) 720
  refine ⟨h.1 ⟨"vid", hlsCexText, "url"⟩, h.2.1 _, ?_⟩
  refine h.2.2.2.1 (jsSplitLines hlsCexText) ?_
  decide

-- ═══════════════════════════════════════════════════════════════════
-- § C7: `parseMusicItem` (src/index.ts:614-635)
-- ═══════════════════════════════════════════════════════════════════

/-- Upstream text object: `{text?, toString?()}`; `toStr` is the value
the optional `toString?.()` call would produce. -/
structure InnertubeText where
  text : Option String
  toStr : Option String
deriving DecidableEq

/-- `endpoint?.payload?.{browseId, videoId}`. -/
structure EndpointPayload where
  browseId : Option String
  videoId : Option String
deriving DecidableEq

/-- An endpoint wrapper: `{payload?}`. -/
structure InnertubeEndpoint where
  payload : Option EndpointPayload
deriving DecidableEq

/-- `item.overlay?.content?` — carries both an `endpoint` and a direct
`payload`. -/
structure OverlayContent where
  endpoint : Option InnertubeEndpoint
  payload : Option EndpointPayload
deriving DecidableEq

/-- `item.overlay?`. -/
structure Overlay where
  content : Option OverlayContent
deriving DecidableEq

/-- `item.on_tap?`. -/
structure OnTap where
  payload : Option EndpointPayload
deriving DecidableEq

/-- The fields of an upstream list item that `parseMusicItem` reads.
The reflective thumbnail scan of `deepExtractThumbnail` is modelled
shallowly by the explicit `thumbnails` array (no claim depends on
artwork values). -/
structure InnertubeListItem where
  type : Option String
  id : Option String
  title : Option InnertubeText
  subtitle : Option InnertubeText
  endpoint : Option InnertubeEndpoint
  navigation_endpoint : Option InnertubeEndpoint
  overlay : Option Overlay
  on_tap : Option OnTap
  thumbnails : List String
deriving DecidableEq

/-- The closed feed-item kind enumeration of `MediaFeedItem.type`
(types/media.ts:129). -/
inductive MediaFeedItemType where
  | playlist | album | song | artist | movie | series | episode
  | category | unknown
deriving DecidableEq

/-- The `MediaFeedItem` model (the fields `parseMusicItem` emits). -/
structure MediaFeedItem where
  id : String
  title : String
  subtitle : String
  thumbnail : String
  type : MediaFeedItemType
  trackId : Option String
  browseId : Option String
deriving DecidableEq

/-- `x?.text ?? x?.toString?.() ?? ''`. -/
def textOf (t : Option InnertubeText) : String :=
  ((t.bind (fun x => x.text)) <|> (t.bind (fun x => x.toStr))).getD ""

/-- Thumbnail extraction, modelled shallowly (see `InnertubeListItem`). -/
def deepExtractThumbnail (item : InnertubeListItem) : String :=
  (item.thumbnails.getLast?).getD ""

/-- `const endpoint = item.endpoint ?? item.navigation_endpoint`. -/
def musicItemEndpoint (item : InnertubeListItem) : Option InnertubeEndpoint :=
  item.endpoint <|> item.navigation_endpoint

/-- `endpoint?.payload?.browseId ?? ''`. -/
def musicItemBrowseId (item : InnertubeListItem) : String :=
  (((musicItemEndpoint item).bind (fun e => e.payload)).bind
    (fun p => p.browseId)).getD ""

/-- `endpoint?.payload?.videoId ?? item.overlay?.content?.payload?.videoId
?? item.on_tap?.payload?.videoId ?? item.id ?? ''` (a present empty
string is kept — `??` only falls through on null/undefined). -/
def musicItemVideoId (item : InnertubeListItem) : String :=
  ((((musicItemEndpoint item).bind (fun e => e.payload)).bind
      (fun p => p.videoId)) <|>
    (((item.overlay.bind (fun o => o.content)).bind (fun c => c.payload)).bind
      (fun p => p.videoId)) <|>
    ((item.on_tap.bind (fun t => t.payload)).bind (fun p => p.videoId)) <|>
    item.id).getD ""

/-- `!!videoId && videoId.length === 11 && !videoId.startsWith('VL') &&
!videoId.startsWith('MPR')`. -/
def isValidVideoIdOf (item : InnertubeListItem) : Bool :=
  (musicItemVideoId item != "") && ((musicItemVideoId item).length == 11) &&
    !(jsStartsWith (musicItemVideoId item) "VL") &&
    !(jsStartsWith (musicItemVideoId item) "MPR")

/-- The subtitle-keyword classification of the browse-id branch:
case-insensitive substring checks in the order album → artist →
song/single → playlist. -/
def classifyBySubtitle (subtitle : String) : MediaFeedItemType :=
  if jsIncludes (jsToLower subtitle) "album" then MediaFeedItemType.album
  else if jsIncludes (jsToLower subtitle) "artist" then MediaFeedItemType.artist
  else if jsIncludes (jsToLower subtitle) "song" ||
      jsIncludes (jsToLower subtitle) "single" then MediaFeedItemType.song
  else MediaFeedItemType.playlist

/-- The kind computed by `parseMusicItem`: `song` for a valid video id;
else keyword classification when a browse id exists; else `unknown`. -/
def musicItemType (item : InnertubeListItem) : MediaFeedItemType :=
  if isValidVideoIdOf item then MediaFeedItemType.song
  else if musicItemBrowseId item != "" then
    classifyBySubtitle (textOf item.subtitle)
  else MediaFeedItemType.unknown

/-- `parseMusicItem` (src/index.ts:614-635). -/
def parseMusicItem (item : InnertubeListItem) : Option MediaFeedItem :=
  if (item.type.getD "") != "MusicTwoRowItem" then none
  else if textOf item.title = "" then none
  else some
    { id :=
        if musicItemBrowseId item != "" then musicItemBrowseId item
        else if musicItemVideoId item != "" then musicItemVideoId item
        else textOf item.title,
      title := textOf item.title,
      subtitle := textOf item.subtitle,
      thumbnail := deepExtractThumbnail item,
      type := musicItemType item,
      trackId :=
        if isValidVideoIdOf item then some (musicItemVideoId item) else none,
      browseId :=
        if musicItemBrowseId item != "" then some (musicItemBrowseId item)
        else none }

/-- **C7 (confirmed, read on emitted items).**  `parseMusicItem`
classification: an emitted item carrying an 11-character video id not
prefixed `VL`/`MPR` is classified `song` regardless of its subtitle;
otherwise, an emitted item with a browse id is classified by
case-insensitive substring match on its subtitle in the order album →
artist → song/single → default playlist; an item with neither an id nor
a browse id nor a title is dropped. -/
theorem parseMusicItem_classification (item : InnertubeListItem) :
    (∀ r, parseMusicItem item = some r → isValidVideoIdOf item = true →
      r.type = MediaFeedItemType.song) ∧
    (∀ r, parseMusicItem item = some r → isValidVideoIdOf item = false →
      musicItemBrowseId item ≠ "" →
      ((jsIncludes (jsToLower (textOf item.subtitle)) "album" = true →
          r.type = MediaFeedItemType.album) ∧
       (jsIncludes (jsToLower (textOf item.subtitle)) "album" = false →
        jsIncludes (jsToLower (textOf item.subtitle)) "artist" = true →
          r.type = MediaFeedItemType.artist) ∧
       (jsIncludes (jsToLower (textOf item.subtitle)) "album" = false →
        jsIncludes (jsToLower (textOf item.subtitle)) "artist" = false →
        (jsIncludes (jsToLower (textOf item.subtitle)) "song" = true ∨
         jsIncludes (jsToLower (textOf item.subtitle)) "single" = true) →
          r.type = MediaFeedItemType.song) ∧
       (jsIncludes (jsToLower (textOf item.subtitle)) "album" = false →
        jsIncludes (jsToLower (textOf item.subtitle)) "artist" = false →
        jsIncludes (jsToLower (textOf item.subtitle)) "song" = false →
        jsIncludes (jsToLower (textOf item.subtitle)) "single" = false →
          r.type = MediaFeedItemType.playlist))) ∧
    (musicItemVideoId item = "" → musicItemBrowseId item = "" →
      textOf item.title = "" → parseMusicItem item = none) := by
  have htype : ∀ r, parseMusicItem item = some r →
      r.type = musicItemType item := by
    intro r h
    unfold parseMusicItem at h
    by_cases h1 : (item.type.getD "") != "MusicTwoRowItem"
    · rw [if_pos h1] at h
      exact absurd h (by simp)
    · rw [if_neg h1] at h
      by_cases h2 : textOf item.title = ""
      · rw [if_pos h2] at h
        exact absurd h (by simp)
      · rw [if_neg h2] at h
        rw [Option.some.injEq] at h
        rw [← h]
  refine ⟨?_, ?_, ?_⟩
  · intro r h hvalid
    rw [htype r h]
    unfold musicItemType
    rw [if_pos hvalid]
  · intro r h hvalid hbrowse
    have hb : (musicItemBrowseId item != "") = true := by
      simpa using hbrowse
    have ht : r.type = classifyBySubtitle (textOf item.subtitle) := by
      rw [htype r h]
      unfold musicItemType
      rw [hvalid, if_neg Bool.false_ne_true, if_pos hb]
    refine ⟨?_, ?_, ?_, ?_⟩
    · intro ha
      rw [ht]
      unfold classifyBySubtitle
      rw [if_pos ha]
    · intro ha har
      rw [ht]
      unfold classifyBySubtitle
      rw [ha, if_neg Bool.false_ne_true, if_pos har]
    · intro ha har hs
      rw [ht]
      unfold classifyBySubtitle
      rw [ha, if_neg Bool.false_ne_true, har, if_neg Bool.false_ne_true]
      have : (jsIncludes (jsToLower (textOf item.subtitle)) "song" ||
          jsIncludes (jsToLower (textOf item.subtitle)) "single") = true := by
        rcases hs with hs | hs <;> simp [hs]
      rw [if_pos this]
    · intro ha har hs hsi
      rw [ht]
      unfold classifyBySubtitle
      rw [ha, if_neg Bool.false_ne_true, har, if_neg Bool.false_ne_true,
        hs, hsi]
      rfl
  · intro hv hb htitle
    unfold parseMusicItem
    by_cases h1 : (item.type.getD "") != "MusicTwoRowItem"
    · rw [if_pos h1]
    · rw [if_neg h1, if_pos htitle]

/-- A browse-id-only `MusicTwoRowItem` whose subtitle contains
`"Album"`. -/
def albumItemExample : InnertubeListItem :=
  { type := some "MusicTwoRowItem",
    id := none,
    title := some ⟨some "Greatest Hits", none⟩,
    subtitle := some ⟨some "Album • 2001", none⟩,
    endpoint := some ⟨some ⟨some "MPREb_abc", none⟩⟩,
    navigation_endpoint := none,
    overlay := none,
    on_tap := none,
    thumbnails := [] }

/-- A `MusicTwoRowItem` carrying an 11-character video id whose subtitle
also says `"Album"`. -/
def songItemExample : InnertubeListItem :=
  { type := some "MusicTwoRowItem",
    id := none,
    title := some ⟨some "Some Song", none⟩,
    subtitle := some ⟨some "Album", none⟩,
    endpoint := some ⟨some ⟨none, some "abcdefghijk"⟩⟩,
    navigation_endpoint := none,
    overlay := none,
    on_tap := none,
    thumbnails := [] }

/-- **C7, witness**: the 11-character-id item classifies `song` despite
its `"Album"` subtitle; the browse-id-only `"Album • 2001"` item
classifies `album`; an item with no id, no browse id, and no title is
dropped. -/
theorem parseMusicItem_classification_witness :
    ((parseMusicItem songItemExample).map (fun r => r.type) =
      some MediaFeedItemType.song) ∧
    ((parseMusicItem albumItemExample).map (fun r => r.type) =
      some MediaFeedItemType.album) ∧
    parseMusicItem
      { type := some "MusicTwoRowItem", id := none, title := none,
        subtitle := none, endpoint := none, navigation_endpoint := none,
        overlay := none, on_tap := none, thumbnails := [] } = none := by
  refine ⟨?_, ?_, ?_⟩
  · have h := (parseMusicItem_classification songItemExample).1
    cases hp : parseMusicItem songItemExample with
    | none => exact absurd hp (by decide)
    | some r =>
      rw [Option.map_some']
      rw [h r hp (by decide)]
  · have h := (parseMusicItem_classification albumItemExample).2.1
    cases hp : parseMusicItem albumItemExample with
    | none => exact absurd hp (by decide)
    | some r =>
      rw [Option.map_some']
      rw [(h r hp (by decide) (by decide)).1 (by decide)]
  · exact (parseMusicItem_classification _).2.2 (by decide) (by decide)
      (by decide)

-- ═══════════════════════════════════════════════════════════════════
-- § C9: per-item try/catch in the container loops
-- ═══════════════════════════════════════════════════════════════════

/-- The shared per-item loop of `getHomeFeed` (src/index.ts:380-385),
`getCollection` (410-412) and `fetchAlbum` (558-565): `try { const
parsed = p(item); if (parsed) out.push(parsed) } catch { /* skip */ }`.
The parser `p` may throw (`Except.error`) or return `null`
(`Option.none`). -/
def collectItems {α β ε : Type} (p : α → Except ε (Option β)) :
    List α → List β
  | [] => []
  | i :: rest =>
    match p i with
    | Except.ok (some r) => r :: collectItems p rest
    | Except.ok none => collectItems p rest
    | Except.error _ => collectItems p rest

/-- An upstream home-feed section (the fields `getHomeFeed` reads). -/
structure InnertubeSection where
  type : Option String
  headerTitle : Option String
  contents : List InnertubeListItem
deriving DecidableEq

/-- The section loop of `getHomeFeed` (src/index.ts:374-387): skip
`MusicTasteBuilderShelf`, skip untitled sections, collect the parsed
items, and keep the section only when at least one item survived. -/
def getHomeFeedSections {ε : Type}
    (p : InnertubeListItem → Except ε (Option MediaFeedItem))
    (sections : List InnertubeSection) :
    List (String × List MediaFeedItem) :=
  sections.filterMap (fun s =>
    if (s.type.getD "") == "MusicTasteBuilderShelf" then none
    else if (s.headerTitle.getD "") = "" then none
    else if (collectItems p s.contents).length = 0 then none
    else some (s.headerTitle.getD "", collectItems p s.contents))

theorem collectItems_cons_ok {α β ε : Type} {p : α → Except ε (Option β)}
    {x : α} {r : β} (rest : List α) (h : p x = Except.ok (some r)) :
    collectItems p (x :: rest) = r :: collectItems p rest := by
  conv_lhs => unfold collectItems
  rw [h]

theorem collectItems_cons_none {α β ε : Type} {p : α → Except ε (Option β)}
    {x : α} (rest : List α) (h : p x = Except.ok none) :
    collectItems p (x :: rest) = collectItems p rest := by
  conv_lhs => unfold collectItems
  rw [h]

theorem collectItems_cons_error {α β ε : Type}
    {p : α → Except ε (Option β)} {x : α} {e : ε} (rest : List α)
    (h : p x = Except.error e) :
    collectItems p (x :: rest) = collectItems p rest := by
  conv_lhs => unfold collectItems
  rw [h]

theorem collectItems_append {α β ε : Type} (p : α → Except ε (Option β))
    (xs ys : List α) :
    collectItems p (xs ++ ys) = collectItems p xs ++ collectItems p ys := by
  induction xs with
  | nil => rfl
  | cons x xs ih =>
    rw [List.cons_append]
    cases hp : p x with
    | error e =>
      rw [collectItems_cons_error _ hp, collectItems_cons_error _ hp, ih]
    | ok o =>
      cases o with
      | none =>
        rw [collectItems_cons_none _ hp, collectItems_cons_none _ hp, ih]
      | some r =>
        rw [collectItems_cons_ok _ hp, collectItems_cons_ok _ hp, ih]
        rfl

theorem mem_collectItems_of_ok {α β ε : Type}
    {p : α → Except ε (Option β)} {i : α} {r : β} :
    ∀ {ls : List α}, i ∈ ls → p i = Except.ok (some r) →
      r ∈ collectItems p ls := by
  intro ls
  induction ls with
  | nil => intro h; exact absurd h (List.not_mem_nil i)
  | cons x xs ih =>
    intro hmem hok
    rcases List.mem_cons.mp hmem with hx | hx
    · subst hx
      rw [collectItems_cons_ok _ hok]
      exact List.mem_cons_self r _
    · cases hp : p x with
      | error e => rw [collectItems_cons_error _ hp]; exact ih hx hok
      | ok o =>
        cases o with
        | none => rw [collectItems_cons_none _ hp]; exact ih hx hok
        | some r' =>
          rw [collectItems_cons_ok _ hp]
          exact List.mem_cons_of_mem r' (ih hx hok)

/-- **C9 (confirmed).**  One malformed entry never aborts a container
loop: if extracting `bad` throws, the collected list over
`xs ++ bad :: ys` equals the collected lists of `xs` and `ys` glued
together — every remaining well-formed entry is still extracted and
emitted (second conjunct) — and a whole home-feed section built over a
list containing the throwing entry equals the section built without
it. -/
theorem collectItems_isolates_errors {α β ε : Type}
    (p : α → Except ε (Option β)) (xs ys : List α) (bad : α) (e : ε)
    (hbad : p bad = Except.error e) :
    (collectItems p (xs ++ bad :: ys) =
      collectItems p xs ++ collectItems p ys) ∧
    (∀ i r, i ∈ xs ++ bad :: ys → p i = Except.ok (some r) →
      r ∈ collectItems p (xs ++ bad :: ys)) ∧
    (∀ (q : InnertubeListItem → Except ε (Option MediaFeedItem))
        (bad' : InnertubeListItem) (xs' ys' : List InnertubeListItem)
        (sec : InnertubeSection), q bad' = Except.error e →
      getHomeFeedSections q
          [{ sec with contents := xs' ++ bad' :: ys' }] =
        getHomeFeedSections q [{ sec with contents := xs' ++ ys' }]) := by
  have hskip : ∀ {α' β' : Type} (p' : α' → Except ε (Option β'))
      (xs' ys' : List α') (bad' : α'), p' bad' = Except.error e →
      collectItems p' (xs' ++ bad' :: ys') =
        collectItems p' xs' ++ collectItems p' ys' := by
    intro α' β' p' xs' ys' bad' hbad'
    rw [collectItems_append, collectItems_cons_error _ hbad']
  refine ⟨hskip p xs ys bad hbad, ?_, ?_⟩
  · intro i r hmem hok
    exact mem_collectItems_of_ok hmem hok
  · intro q bad' xs' ys' sec hbad'
    have hc : collectItems q (xs' ++ bad' :: ys') =
        collectItems q (xs' ++ ys') := by
      rw [collectItems_append, collectItems_cons_error _ hbad',
        ← collectItems_append]
    unfold getHomeFeedSections
    rw [List.filterMap_cons, List.filterMap_cons]
    dsimp only
    rw [hc]

/-- Concrete parser for the C9 witness: throws on 0, drops 5, emits
anything else. -/
def throwingItemParser : Nat → Except Unit (Option Nat) := fun n =>
  if n = 0 then Except.error ()
  else if n = 5 then Except.ok none
  else Except.ok (some n)

/-- **C9, witness**: the thrown entry 0 is skipped and 1, 2, 3, 4 are
all still emitted. -/
theorem collectItems_isolates_errors_witness :
    throwingItemParser 0 = Except.error () ∧
    collectItems throwingItemParser ([1, 2] ++ 0 :: [3, 4]) =
      collectItems throwingItemParser [1, 2] ++
        collectItems throwingItemParser [3, 4] ∧
    collectItems throwingItemParser ([1, 2] ++ 0 :: [3, 4]) = [1, 2, 3, 4] := by
  have h := collectItems_isolates_errors throwingItemParser [1, 2] [3, 4] 0 ()
    rfl
  exact ⟨rfl, h.1, by decide⟩

-- ═══════════════════════════════════════════════════════════════════
-- § C1: `getSuggestions` (src/index.ts:418-497)
-- ═══════════════════════════════════════════════════════════════════

/-- The normalized `MediaItem` (the fields the suggestion path writes;
`sourceId`/`type` are the constants `'youtube'`/`'track'`).  `duration`
is `none` where the JS value would be `NaN`. -/
structure MediaItem where
  id : String
  title : String
  artist : String
  artwork : String
  duration : Option Nat
deriving DecidableEq

/-- One image source `{url?}`. -/
structure ImageSource where
  url : Option String
deriving DecidableEq

/-- One text run `{text?}`. -/
structure TextRun where
  text : Option String
deriving DecidableEq

/-- `part?.text?.content`, collapsed. -/
structure LockupMetadataPart where
  textContent : Option String
deriving DecidableEq

/-- `row?.metadataParts`. -/
structure LockupMetadataRow where
  metadataParts : Option (List LockupMetadataPart)
deriving DecidableEq

/-- `lockup.contentImage`, with each of the three probed
`...image?.sources` paths collapsed to its source list. -/
structure LockupContentImage where
  collectionSources : Option (List ImageSource)
  thumbnailSources : Option (List ImageSource)
  decoratedSources : Option (List ImageSource)
deriving DecidableEq

/-- The lockup shape: `contentId`,
`metadata?.lockupMetadataViewModel?.title?.content` (collapsed to
`titleContent`), the metadata rows, and the content image. -/
structure LockupViewModel where
  contentId : Option String
  titleContent : Option String
  metadataRows : Option (List LockupMetadataRow)
  contentImage : Option LockupContentImage
deriving DecidableEq

/-- The legacy compact-video-renderer shape (each `a?.b` path the source
reads, collapsed to one optional field). -/
structure CompactVideoRenderer where
  videoId : Option String
  titleSimpleText : Option String
  titleRuns : Option (List TextRun)
  longBylineRuns : Option (List TextRun)
  shortBylineRuns : Option (List TextRun)
  thumbnails : Option (List ImageSource)
  lengthTextSimple : Option String
deriving DecidableEq

/-- One entry of the watch-next secondary results. -/
structure NextEndpointResult where
  lockupViewModel : Option LockupViewModel
  compactVideoRenderer : Option CompactVideoRenderer
deriving DecidableEq

/-- Split a string on a separator character (JS `text.split(':')`). -/
def jsSplitOn (sep : Char) (s : String) : List String :=
  let r := charsSplitOn sep s.toList
  (r.1 :: r.2).map String.mk

/-- JS `Number(s)` restricted to the duration digits: `''` is 0, a pure
digit string is its value, anything else is `NaN` (`none`). -/
def jsNumber (s : String) : Option Nat :=
  if s.toList = [] then some 0
  else if s.toList.all Char.isDigit then some (digitsToNat s.toList)
  else none

/-- `parseDuration` (src/index.ts:724-730): `H:MM:SS` / `MM:SS` to
seconds, 0 for a missing text or any other shape, `NaN` (`none`) when a
segment is not numeric. -/
def parseDuration (text : Option String) : Option Nat :=
  match text with
  | none => some 0
  | some t =>
    match (jsSplitOn ':' t).map jsNumber with
    | [some a, some b, some c] => some (a * 3600 + b * 60 + c)
    | [some a, some b] => some (a * 60 + b)
    | [_, _, _] => none
    | [_, _] => none
    | _ => some 0

/-- `getBestThumbnail` (src/index.ts:732-735). -/
def getBestThumbnail (thumbnails : Option (List ImageSource)) : String :=
  match thumbnails with
  | none => ""
  | some ts =>
    if ts.isEmpty then "" else ((ts.getLast?.bind (fun s => s.url)).getD "")

/-- `parseLockupViewModel` (src/index.ts:637-666). -/
def parseLockupViewModel (lockup : LockupViewModel) : Option MediaItem :=
  match lockup.contentId with
  | none => none
  | some videoId =>
    if videoId = "" then none
    else
      some
        { id := videoId,
          title := lockup.titleContent.getD "Unknown",
          artist :=
            (lockup.metadataRows.getD []).foldl (fun a row =>
              (row.metadataParts.getD []).foldl (fun a part =>
                match part.textContent with
                | some c => if c != "" && a == "Unknown" then c else a
                | none => a) a) "Unknown",
          artwork :=
            let sources := (lockup.contentImage.bind (fun ci =>
              ci.collectionSources <|> ci.thumbnailSources <|>
                ci.decoratedSources)).getD []
            let fromSources :=
              if sources.isEmpty then ""
              else (sources.getLast?.bind (fun s => s.url)).getD ""
            if fromSources = "" then
              "https://i.ytimg.com/vi/" ++ videoId ++ "/hqdefault.jpg"
            else fromSources,
          duration := some 0 }

/-- `renderer.title?.simpleText ?? renderer.title?.runs?.[0]?.text ??
'Unknown'`. -/
def compactTitle (r : CompactVideoRenderer) : String :=
  (r.titleSimpleText <|>
    ((r.titleRuns.bind (fun l => l.head?)).bind (fun x => x.text))).getD
    "Unknown"

/-- `renderer.longBylineText?.runs?.[0]?.text ??
renderer.shortBylineText?.runs?.[0]?.text ?? 'Unknown'`. -/
def compactArtist (r : CompactVideoRenderer) : String :=
  (((r.longBylineRuns.bind (fun l => l.head?)).bind (fun x => x.text)) <|>
    ((r.shortBylineRuns.bind (fun l => l.head?)).bind (fun x => x.text))).getD
    "Unknown"

/-- The per-result body of the strategy-1 loop (src/index.ts:433-454):
a lockup entry is parsed and pushed only when its id differs from the
seed; a compact-video-renderer entry with a truthy `videoId` is pushed
with NO seed check. -/
def suggestionItemTracks (contentId : String) (item : NextEndpointResult) :
    List MediaItem :=
  match item.lockupViewModel with
  | some lockup =>
    match parseLockupViewModel lockup with
    | some t => if t.id ≠ contentId then [t] else []
    | none => []
  | none =>
    match item.compactVideoRenderer with
    | some r =>
      match r.videoId with
      | some v =>
        if v ≠ "" then
          [⟨v, compactTitle r, compactArtist r, getBestThumbnail r.thumbnails,
            parseDuration r.lengthTextSimple⟩]
        else []
      | none => []
    | none => []

/-- All tracks the strategy-1 loop accumulates, in order. -/
def strategy1Tracks (results : List NextEndpointResult)
    (contentId : String) : List MediaItem :=
  results.flatMap (suggestionItemTracks contentId)

/-- `video.title`, which is either a plain string or a text object
(`typeof rawTitle === 'string' ? rawTitle : rawTitle?.text ??
'Unknown'`). -/
inductive TitleVal where
  | str (s : String)
  | txt (text : Option String)
deriving DecidableEq

/-- The string the search mapping extracts from a title value. -/
def titleValText : Option TitleVal → String
  | some (TitleVal.str s) => s
  | some (TitleVal.txt t) => t.getD "Unknown"
  | none => "Unknown"

/-- `video.author`: a plain string or an object with a `name`. -/
inductive AuthorVal where
  | str (s : String)
  | obj (name : Option String)
deriving DecidableEq

/-- The string the search mapping extracts from an author value. -/
def authorValName : Option AuthorVal → String
  | some (AuthorVal.str s) => s
  | some (AuthorVal.obj n) => n.getD "Unknown"
  | none => "Unknown"

/-- `video.duration`: a plain number or an object with `seconds`. -/
inductive DurVal where
  | num (n : Nat)
  | obj (seconds : Option Nat)
deriving DecidableEq

/-- `typeof v.duration === 'number' ? v.duration : (v.duration?.seconds
?? 0)`. -/
def durValSeconds : Option DurVal → Nat
  | some (DurVal.num n) => n
  | some (DurVal.obj s) => s.getD 0
  | none => 0

/-- One search result (src/types.ts:849-857). -/
structure InnertubeVideoResult where
  id : Option String
  video_id : Option String
  title : Option TitleVal
  author : Option AuthorVal
  best_thumbnail : Option ImageSource
  thumbnails : Option (List ImageSource)
  duration : Option DurVal
deriving DecidableEq

/-- `const id = v.id ?? v.video_id`. -/
def suggestVideoId (v : InnertubeVideoResult) : Option String :=
  v.id <|> v.video_id

/-- Strategy 2 (src/index.ts:468-494) from the search results: filter
out entries with a falsy id or the seed id, truncate to 20, map to
items, drop the (unreachable) id-less ones. -/
def suggestStrategy2 (videos : List InnertubeVideoResult)
    (contentId : String) : List MediaItem :=
  ((videos.filter (fun v =>
    match suggestVideoId v with
    | some idv => idv != "" && idv != contentId
    | none => false)).take 20).filterMap (fun v =>
      match suggestVideoId v with
      | none => none
      | some idv =>
        if idv = "" then none
        else some
          { id := idv,
            title := titleValText v.title,
            artist := authorValName v.author,
            artwork := ((v.best_thumbnail.bind (fun b => b.url)) <|>
              ((v.thumbnails.bind (fun l => l.head?)).bind
                (fun s => s.url))).getD "",
            duration := some (durValSeconds v.duration) })

/-- `getSuggestions(contentId)` (src/index.ts:418-497), embedded from
the two upstream responses: `next` is the watch-next secondary-results
array when strategy 1 obtains one (`none` when the request fails or the
nested path is missing), `videos` the search results of the fallback
query.  Strategy 1's tracks are returned (truncated to 20) only when at
least one was collected; otherwise strategy 2 runs. -/
def getSuggestions (next : Option (List NextEndpointResult))
    (videos : List InnertubeVideoResult) (contentId : String) :
    List MediaItem :=
  match next with
  | some results =>
    if (strategy1Tracks results contentId).length > 0 then
      (strategy1Tracks results contentId).take 20
    else suggestStrategy2 videos contentId
  | none => suggestStrategy2 videos contentId

/-- **C1, counterexample.**  The claim says `getSuggestions` never
returns an item whose id equals the seed under either shape of
strategy 1.  The compact-video-renderer branch (src/index.ts:440-452)
pushes the track without any seed check: a watch-next response whose
only entry is a compact renderer carrying the seed id itself yields a
result list containing the seed. -/
theorem getSuggestions_seed_cex :
    ((getSuggestions
        (some [⟨none, some ⟨some "AAAAAAAAAAA", none, none, none, none,
          none, none⟩⟩])
        [] "AAAAAAAAAAA").any (fun t => t.id == "AAAAAAAAAAA")) = true := by
  decide

/-- **C1, amended.**  `getSuggestions` always returns at most 20 items;
and it contains no item whose id equals the seed PROVIDED no
compact-video-renderer entry of the watch-next results carries the seed
id — the lockup branch of strategy 1 and all of strategy 2 exclude the
seed by id, but the compact-video-renderer branch does not filter it. -/
theorem getSuggestions_amended (next : Option (List NextEndpointResult))
    (videos : List InnertubeVideoResult) (cid : String) :
    (getSuggestions next videos cid).length ≤ 20 ∧
    ((∀ results, next = some results →
        ∀ item ∈ results, ∀ r, item.compactVideoRenderer = some r →
          r.videoId ≠ some cid) →
      ∀ t ∈ getSuggestions next videos cid, t.id ≠ cid) := by
  have hstrat2len : (suggestStrategy2 videos cid).length ≤ 20 := by
    unfold suggestStrategy2
    refine le_trans (List.length_filterMap_le _ _) ?_
    rw [List.length_take]
    exact min_le_left _ _
  have hstrat2mem : ∀ t ∈ suggestStrategy2 videos cid, t.id ≠ cid := by
    intro t ht
    unfold suggestStrategy2 at ht
    rw [List.mem_filterMap] at ht
    obtain ⟨v, hv, hfv⟩ := ht
    have hvf := List.mem_filter.mp (List.take_subset 20 _ hv)
    cases hsv : suggestVideoId v with
    | none =>
      rw [hsv] at hfv
      dsimp only at hfv
      exact absurd hfv (by simp)
    | some idv =>
      rw [hsv] at hfv
      dsimp only at hfv
      have hpred := hvf.2
      rw [hsv] at hpred
      dsimp only at hpred
      rw [Bool.and_eq_true] at hpred
      have hne : idv ≠ cid := by simpa using hpred.2
      by_cases hid0 : idv = ""
      · rw [if_pos hid0] at hfv
        exact absurd hfv (by simp)
      · rw [if_neg hid0] at hfv
        rw [Option.some.injEq] at hfv
        rw [← hfv]
        exact hne
  have hstrat1mem : ∀ results,
      (∀ item ∈ results, ∀ r, item.compactVideoRenderer = some r →
        r.videoId ≠ some cid) →
      ∀ t ∈ strategy1Tracks results cid, t.id ≠ cid := by
    intro results hyp t ht
    unfold strategy1Tracks at ht
    rw [List.mem_flatMap] at ht
    obtain ⟨item, hitem, htr⟩ := ht
    unfold suggestionItemTracks at htr
    cases hl : item.lockupViewModel with
    | some lockup =>
      rw [hl] at htr
      dsimp only at htr
      cases hp : parseLockupViewModel lockup with
      | none =>
        rw [hp] at htr
        dsimp only at htr
        exact absurd htr (List.not_mem_nil t)
      | some t' =>
        rw [hp] at htr
        dsimp only at htr
        by_cases hne : t'.id ≠ cid
        · rw [if_pos hne, List.mem_singleton] at htr
          rw [htr]
          exact hne
        · rw [if_neg hne] at htr
          exact absurd htr (List.not_mem_nil t)
    | none =>
      rw [hl] at htr
      dsimp only at htr
      cases hc : item.compactVideoRenderer with
      | none =>
        rw [hc] at htr
        dsimp only at htr
        exact absurd htr (List.not_mem_nil t)
      | some r =>
        rw [hc] at htr
        dsimp only at htr
        cases hvid : r.videoId with
        | none =>
          rw [hvid] at htr
          dsimp only at htr
          exact absurd htr (List.not_mem_nil t)
        | some v =>
          rw [hvid] at htr
          dsimp only at htr
          by_cases hv0 : v ≠ ""
          · rw [if_pos hv0, List.mem_singleton] at htr
            have := hyp item hitem r hc
            rw [hvid] at this
            rw [htr]
            intro hcontra
            have hcontra' : v = cid := hcontra
            exact this (by rw [hcontra'])
          · rw [if_neg hv0] at htr
            exact absurd htr (List.not_mem_nil t)
  cases next with
  | none =>
    exact ⟨hstrat2len, fun _ => hstrat2mem⟩
  | some results =>
    unfold getSuggestions
    dsimp only
    by_cases hlen : (strategy1Tracks results cid).length > 0
    · rw [if_pos hlen]
      constructor
      · rw [List.length_take]
        exact min_le_left _ _
      · intro hyp t ht
        exact hstrat1mem results (hyp results rfl) t (List.take_subset 20 _ ht)
    · rw [if_neg hlen]
      exact ⟨hstrat2len, fun _ => hstrat2mem⟩

/-- **C1, witness for the amended theorem**: a watch-next response with
one compact renderer carrying a different video id. -/
theorem getSuggestions_amended_witness :
    (getSuggestions
        (some [⟨none, some ⟨some "BBBBBBBBBBB", none, none, none, none,
          none, none⟩⟩])
        [] "AAAAAAAAAAA").length ≤ 20 ∧
    (∀ t ∈ getSuggestions
        (some [⟨none, some ⟨some "BBBBBBBBBBB", none, none, none, none,
          none, none⟩⟩])
        [] "AAAAAAAAAAA", t.id ≠ "AAAAAAAAAAA") := by
  have h := getSuggestions_amended
    (some [⟨none, some ⟨some "BBBBBBBBBBB", none, none, none, none,
      none, none⟩⟩])
    [] "AAAAAAAAAAA"
  refine ⟨h.1, h.2 ?_⟩
  intro results hres
  rw [Option.some.injEq] at hres
  subst hres
  intro item hitem r hr
  rw [List.mem_singleton] at hitem
  subst hitem
  rw [Option.some.injEq] at hr
  subst hr
  decide
